import Mathlib

/-!
# Cpu-Guardian: verification of the telemetry / anomaly pipeline

Shallow embedding of the core of the Cpu-Guardian repository
(src/ringbuffer.c, src/telemetry.c, src/anomaly.c, src/correlation.c,
the IPC wire record of ipc_socket.h / ipc_socket_send) and proofs of the
specified properties.

Modelling conventions:
* C `double` / `float` values are modelled as exact rational numbers (`ℚ`);
  IEEE rounding is not modelled.
* `size_t` / `uint64_t` arithmetic is modelled on `ℕ` with explicit
  reduction modulo `2^64` at the places where the C code can wrap.
* The libm function `sqrt` (used only by `anomaly_finalize_baseline`) is an
  external library call; it is passed in as an explicit function parameter
  `sq : ℚ → ℚ`, and theorems assume only the properties of real square
  roots that they need (`sq 0 = 0`, nonnegativity on nonnegative inputs).
* The IEEE-754 bit encoding of a 32-bit float (used only when forming the
  packed wire record) is likewise passed in as a parameter `f32 : ℚ → ℕ`
  producing the 32-bit pattern of the float field.
* `calloc` is modelled as always succeeding (allocation failure aborts
  initialization in the C code and no claim is about that path).
* The `comm` field of a correlation entry is resolved from `/proc` (external
  I/O); no claim mentions it and it is omitted from the model.
-/

/-- `2^64`, the modulus of `size_t` / `uint64_t` arithmetic. -/
def w64 : ℕ := 2 ^ 64

/-- 64-bit wrapping subtraction `a - b` (for `b ≤ 2^64`), as computed by C
on `size_t` / `uint64_t` operands. -/
def sub64 (a b : ℕ) : ℕ := (a + (w64 - b)) % w64

/-- `telemetry_sample_t` (telemetry.h). -/
structure Sample where
  timestamp_ns : ℕ
  cache_references : ℕ
  cache_misses : ℕ
  branch_instructions : ℕ
  branch_misses : ℕ
  cycles : ℕ
  instructions : ℕ
  cache_miss_rate : ℚ
  branch_miss_rate : ℚ
  ipc : ℚ
deriving DecidableEq

/-- The all-zero sample (`calloc` / `memset` initialization). -/
def zeroSample : Sample := ⟨0, 0, 0, 0, 0, 0, 0, 0, 0, 0⟩

/-- A `pmu_reading_t` restricted to the six counter values; in
`sampling_loop` (telemetry.c) the deltas of two readings are fed to
`compute_derived`. -/
structure PmuReading where
  cache_references : ℕ
  cache_misses : ℕ
  branch_instructions : ℕ
  branch_misses : ℕ
  instructions : ℕ
  cycles : ℕ
deriving DecidableEq

/-- `compute_derived` (telemetry.c): copy the six delta counters into the
sample and fill the three derived ratios, guarding each division. -/
def compute_derived (s : Sample) (r : PmuReading) : Sample :=
  { s with
    cache_references := r.cache_references
    cache_misses := r.cache_misses
    branch_instructions := r.branch_instructions
    branch_misses := r.branch_misses
    instructions := r.instructions
    cycles := r.cycles
    cache_miss_rate :=
      if 0 < r.instructions then (r.cache_misses : ℚ) / (r.instructions : ℚ) else 0
    branch_miss_rate :=
      if 0 < r.branch_instructions then
        (r.branch_misses : ℚ) / (r.branch_instructions : ℚ) else 0
    ipc :=
      if 0 < r.cycles then (r.instructions : ℚ) / (r.cycles : ℚ) else 0 }

/-- `ringbuffer_t` (ringbuffer.h): capacity, sample storage, producer index
`head`, consumer index `tail`.  The storage is modelled as a total map from
slot index to sample. -/
structure Ringbuffer where
  capacity : ℕ
  buffer : ℕ → Sample
  head : ℕ
  tail : ℕ

/-- `next_power_of_two` (ringbuffer.c): the classic bit-smearing round-up,
on 64-bit `size_t` arithmetic.  `v--` and `v++` can wrap and are reduced
mod `2^64`; the shifts and ors cannot. -/
def next_power_of_two (v : ℕ) : ℕ :=
  let v1 := (v + (w64 - 1)) % w64
  let v2 := v1 ||| (v1 >>> 1)
  let v3 := v2 ||| (v2 >>> 2)
  let v4 := v3 ||| (v3 >>> 4)
  let v5 := v4 ||| (v4 >>> 8)
  let v6 := v5 ||| (v5 >>> 16)
  let v7 := v6 ||| (v6 >>> 32)
  (v7 + 1) % w64

/-- `ringbuffer_init` (ringbuffer.c): reject capacity 0, round the capacity
up with `next_power_of_two`, zero-initialize the storage (`calloc`) and both
indices. -/
def ringbuffer_init (capacity : ℕ) : Option Ringbuffer :=
  if capacity = 0 then none
  else some
    { capacity := next_power_of_two capacity
      buffer := fun _ => zeroSample
      head := 0
      tail := 0 }

/-- `ringbuffer_push` (ringbuffer.c).  `rb->capacity - 1` is `size_t`
subtraction, hence `sub64`.  Returns the new state and the success flag. -/
def ringbuffer_push (rb : Ringbuffer) (sample : Sample) : Ringbuffer × Bool :=
  let head := rb.head
  let tail := rb.tail
  let next := (head + 1) &&& sub64 rb.capacity 1
  if next = tail then (rb, false)
  else
    ({ rb with
        buffer := fun i => if i = head then sample else rb.buffer i
        head := next },
     true)

/-- `ringbuffer_pop` (ringbuffer.c). Returns the new state and the popped
sample (`none` = empty). -/
def ringbuffer_pop (rb : Ringbuffer) : Ringbuffer × Option Sample :=
  let tail := rb.tail
  let head := rb.head
  if tail = head then (rb, none)
  else
    let out := rb.buffer tail
    let next := (tail + 1) &&& sub64 rb.capacity 1
    ({ rb with tail := next }, some out)

/-- `ringbuffer_count` (ringbuffer.c): masked `size_t` subtraction of the
indices. -/
def ringbuffer_count (rb : Ringbuffer) : ℕ :=
  sub64 rb.head rb.tail &&& sub64 rb.capacity 1

/-- `ringbuffer_empty` (ringbuffer.c). -/
def ringbuffer_empty (rb : Ringbuffer) : Bool :=
  ringbuffer_count rb = 0

/-- Repeatedly `ringbuffer_push` the samples of a list, collecting the
returned success flags in order. -/
def pushList (rb : Ringbuffer) : List Sample → Ringbuffer × List Bool
  | [] => (rb, [])
  | s :: rest =>
    let p := ringbuffer_push rb s
    let q := pushList p.1 rest
    (q.1, p.2 :: q.2)

/-- Call `ringbuffer_pop` `n` times, collecting the results in order. -/
def popN (rb : Ringbuffer) : ℕ → Ringbuffer × List (Option Sample)
  | 0 => (rb, [])
  | n + 1 =>
    let p := ringbuffer_pop rb
    let q := popN p.1 n
    (q.1, p.2 :: q.2)

/-- `anomaly_flags_t` (anomaly.h): `ANOMALY_CACHE_MISS_SPIKE = 1 << 0`. -/
def ANOMALY_CACHE_MISS_SPIKE : ℕ := 1

/-- `ANOMALY_BRANCH_MISS_SPIKE = 1 << 1`. -/
def ANOMALY_BRANCH_MISS_SPIKE : ℕ := 2

/-- `ANOMALY_IPC_COLLAPSE = 1 << 2`. -/
def ANOMALY_IPC_COLLAPSE : ℕ := 4

/-- `ANOMALY_BURST_PATTERN = 1 << 3`. -/
def ANOMALY_BURST_PATTERN : ℕ := 8

/-- `ANOMALY_OSCILLATION = 1 << 4`. -/
def ANOMALY_OSCILLATION : ℕ := 16

/-- `baseline_profile_t` (anomaly.h). -/
structure Baseline where
  mean_cache_miss_rate : ℚ
  std_cache_miss_rate : ℚ
  mean_branch_miss_rate : ℚ
  std_branch_miss_rate : ℚ
  mean_ipc : ℚ
  std_ipc : ℚ
  sample_count : ℕ
  ready : Bool
deriving DecidableEq

/-- `anomaly_result_t` (anomaly.h). -/
structure AnomalyResult where
  z_cache_miss : ℚ
  z_branch_miss : ℚ
  z_ipc : ℚ
  composite_score : ℚ
  anomaly_flags : ℕ
  sustained_count : ℕ
deriving DecidableEq

/-- The all-zero result produced by the `memset` at the top of
`anomaly_detect`. -/
def zeroResult : AnomalyResult := ⟨0, 0, 0, 0, 0, 0⟩

/-- `anomaly_engine_t` (anomaly.h).  The circular window `recent_cmr` is
modelled as a total map from slot index to value. -/
structure AnomalyEngine where
  baseline : Baseline
  z_threshold : ℚ
  burst_window : ℕ
  sum_cmr : ℚ
  sum_cmr2 : ℚ
  sum_bmr : ℚ
  sum_bmr2 : ℚ
  sum_ipc : ℚ
  sum_ipc2 : ℚ
  n : ℕ
  consecutive_anomalies : ℕ
  recent_cmr : ℕ → ℚ
  recent_idx : ℕ
  recent_cap : ℕ

/-- `anomaly_init` (anomaly.c): zero the engine, record the configuration,
allocate the zeroed window of size `burst_window`. -/
def anomaly_init (z_threshold : ℚ) (burst_window : ℕ) : AnomalyEngine :=
  { baseline := ⟨0, 0, 0, 0, 0, 0, 0, false⟩
    z_threshold := z_threshold
    burst_window := burst_window
    sum_cmr := 0, sum_cmr2 := 0
    sum_bmr := 0, sum_bmr2 := 0
    sum_ipc := 0, sum_ipc2 := 0
    n := 0
    consecutive_anomalies := 0
    recent_cmr := fun _ => 0
    recent_idx := 0
    recent_cap := burst_window }

/-- `anomaly_learn` (anomaly.c): accumulate running sums and squared sums
of the three derived metrics. -/
def anomaly_learn (eng : AnomalyEngine) (s : Sample) : AnomalyEngine :=
  let cmr := s.cache_miss_rate
  let bmr := s.branch_miss_rate
  let ipc := s.ipc
  { eng with
    sum_cmr := eng.sum_cmr + cmr
    sum_cmr2 := eng.sum_cmr2 + cmr * cmr
    sum_bmr := eng.sum_bmr + bmr
    sum_bmr2 := eng.sum_bmr2 + bmr * bmr
    sum_ipc := eng.sum_ipc + ipc
    sum_ipc2 := eng.sum_ipc2 + ipc * ipc
    n := eng.n + 1 }

/-- `anomaly_learn` folded over a list of samples (the learning phase). -/
def learnList (eng : AnomalyEngine) (l : List Sample) : AnomalyEngine :=
  l.foldl anomaly_learn eng

/-- `anomaly_finalize_baseline` (anomaly.c).  `sq` is the libm `sqrt`.
With fewer than 1 sample the function returns without touching the engine;
with fewer than 2 samples the variances stay 0; each variance is clamped to
0 before the square root. -/
def anomaly_finalize_baseline (sq : ℚ → ℚ) (eng : AnomalyEngine) : AnomalyEngine :=
  if eng.n < 1 then eng
  else
    let n : ℚ := (eng.n : ℚ)
    let mean_cmr := eng.sum_cmr / n
    let mean_bmr := eng.sum_bmr / n
    let mean_ipc := eng.sum_ipc / n
    let var_cmr :=
      if 2 ≤ eng.n then
        let v := eng.sum_cmr2 / n - mean_cmr * mean_cmr
        if v < 0 then 0 else v
      else 0
    let var_bmr :=
      if 2 ≤ eng.n then
        let v := eng.sum_bmr2 / n - mean_bmr * mean_bmr
        if v < 0 then 0 else v
      else 0
    let var_ipc :=
      if 2 ≤ eng.n then
        let v := eng.sum_ipc2 / n - mean_ipc * mean_ipc
        if v < 0 then 0 else v
      else 0
    { eng with
      baseline :=
        { mean_cache_miss_rate := mean_cmr
          std_cache_miss_rate := sq var_cmr
          mean_branch_miss_rate := mean_bmr
          std_branch_miss_rate := sq var_bmr
          mean_ipc := mean_ipc
          std_ipc := sq var_ipc
          sample_count := eng.n
          ready := true } }

/-- `compute_z` (anomaly.c). -/
def compute_z (value mean std : ℚ) : ℚ :=
  if std < 1e-12 then 0 else (value - mean) / std

/-- The loop body of `detect_oscillation` (anomaly.c), acting on the pair
(direction_changes, prev_dir) for one first-difference value. -/
def oscStep (st : ℕ × ℤ) (diff : ℚ) : ℕ × ℤ :=
  let dir : ℤ := if 0 < diff then 1 else if diff < 0 then -1 else 0
  ((if dir ≠ 0 ∧ dir ≠ st.2 ∧ st.2 ≠ 0 then st.1 + 1 else st.1),
   (if dir ≠ 0 then dir else st.2))

/-- `detect_oscillation` (anomaly.c): windows smaller than 4 never
oscillate; otherwise walk the circular window from the newest pair to the
oldest (`i = 1 .. cap-1`), counting direction changes of the first
difference, and compare against `cap / 2` (integer division). -/
def detect_oscillation (buf : ℕ → ℚ) (cap idx : ℕ) : Bool :=
  if cap < 4 then false
  else
    let diffs := (List.range' 1 (cap - 1)).map fun i =>
      buf ((idx + cap - i) % cap) - buf ((idx + cap - i - 1) % cap)
    let r := diffs.foldl oscStep (0, 0)
    decide (cap / 2 ≤ r.1)

/-- The z-score of the sample cache-miss rate against the baseline
(anomaly.c, `anomaly_detect`). -/
def z_cmr_of (eng : AnomalyEngine) (s : Sample) : ℚ :=
  compute_z s.cache_miss_rate eng.baseline.mean_cache_miss_rate
    eng.baseline.std_cache_miss_rate

/-- The z-score of the sample branch-miss rate against the baseline. -/
def z_bmr_of (eng : AnomalyEngine) (s : Sample) : ℚ :=
  compute_z s.branch_miss_rate eng.baseline.mean_branch_miss_rate
    eng.baseline.std_branch_miss_rate

/-- The z-score of the sample IPC against the baseline. -/
def z_ipc_of (eng : AnomalyEngine) (s : Sample) : ℚ :=
  compute_z s.ipc eng.baseline.mean_ipc eng.baseline.std_ipc

/-- The `anomalous` local of `anomaly_detect` at the point of burst
tracking: some primary threshold comparison fired (cache-miss spike,
branch-miss spike, or IPC collapse). -/
def isAnomalous (eng : AnomalyEngine) (s : Sample) : Prop :=
  z_cmr_of eng s > eng.z_threshold ∨ z_bmr_of eng s > eng.z_threshold ∨
    z_ipc_of eng s < -eng.z_threshold

instance (eng : AnomalyEngine) (s : Sample) : Decidable (isAnomalous eng s) :=
  inferInstanceAs (Decidable (_ ∨ _ ∨ _))

/-- The circular window after appending the current cache-miss rate
(`eng->recent_cmr[eng->recent_idx] = (float)cmr`). -/
def recentAfter (eng : AnomalyEngine) (s : Sample) : ℕ → ℚ :=
  fun i => if i = eng.recent_idx then s.cache_miss_rate else eng.recent_cmr i

/-- The window insertion index after the append
(`eng->recent_idx = (eng->recent_idx + 1) % eng->recent_cap`). -/
def idxAfter (eng : AnomalyEngine) : ℕ :=
  (eng.recent_idx + 1) % eng.recent_cap

/-- The consecutive-anomaly counter after burst tracking: incremented when
a primary flag fired, reset to zero otherwise. -/
def consecAfter (eng : AnomalyEngine) (s : Sample) : ℕ :=
  if isAnomalous eng s then eng.consecutive_anomalies + 1 else 0

/-- The flag bitmask assembled by `anomaly_detect`: the three primary
threshold flags, BURST_PATTERN when the updated counter has reached
`burst_window` (checked inside the anomalous branch), and OSCILLATION from
the window scan after the append. -/
def flagsOf (eng : AnomalyEngine) (s : Sample) : ℕ :=
  (if z_cmr_of eng s > eng.z_threshold then ANOMALY_CACHE_MISS_SPIKE else 0) |||
  (if z_bmr_of eng s > eng.z_threshold then ANOMALY_BRANCH_MISS_SPIKE else 0) |||
  (if z_ipc_of eng s < -eng.z_threshold then ANOMALY_IPC_COLLAPSE else 0) |||
  (if isAnomalous eng s ∧ eng.burst_window ≤ consecAfter eng s then
    ANOMALY_BURST_PATTERN else 0) |||
  (if detect_oscillation (recentAfter eng s) eng.recent_cap (idxAfter eng) = true
    then ANOMALY_OSCILLATION else 0)

/-- The running maximum `max_z` of the three absolute z-scores, computed by
the two sequential comparisons of the C code. -/
def maxAbsZ (eng : AnomalyEngine) (s : Sample) : ℚ :=
  let m1 := |z_cmr_of eng s|
  let m2 := if |z_bmr_of eng s| > m1 then |z_bmr_of eng s| else m1
  if |z_ipc_of eng s| > m2 then |z_ipc_of eng s| else m2

/-- The composite severity: `1 - 1 / (1 + max_z / z_threshold)` followed by
the two clamping branches. -/
def compositeOf (eng : AnomalyEngine) (s : Sample) : ℚ :=
  let cs0 := 1 - 1 / (1 + maxAbsZ eng s / eng.z_threshold)
  if cs0 > 1 then 1 else if cs0 < 0 then 0 else cs0

/-- `anomaly_detect` (anomaly.c): result zeroed (`memset`), gate on
`baseline.ready`, then z-scores, threshold flags, window append, burst
tracking, oscillation check and composite score as given by the helper
definitions above.  Returns the updated engine and the result. -/
def anomaly_detect (eng : AnomalyEngine) (s : Sample) : AnomalyEngine × AnomalyResult :=
  if eng.baseline.ready = true then
    ({ eng with
        recent_cmr := recentAfter eng s
        recent_idx := idxAfter eng
        consecutive_anomalies := consecAfter eng s },
     { z_cache_miss := z_cmr_of eng s
       z_branch_miss := z_bmr_of eng s
       z_ipc := z_ipc_of eng s
       composite_score := compositeOf eng s
       anomaly_flags := flagsOf eng s
       sustained_count := consecAfter eng s })
  else (eng, zeroResult)

/-- `process_risk_t` (correlation.h).  The `comm` name (resolved from
`/proc/<pid>/comm`, external I/O) is omitted; no verified property
mentions it. -/
structure ProcessRisk where
  pid : ℤ
  tid : ℤ
  anomaly_score : ℚ
  total_samples : ℕ
  suspicious_samples : ℕ
  last_seen_ns : ℕ
  active : Bool
deriving DecidableEq

/-- `CORR_MAX_TRACKED` (correlation.h). -/
def CORR_MAX_TRACKED : ℕ := 256

/-- `correlation_engine_t` (correlation.h): the used prefix (`count`
entries) of the fixed 256-slot array, plus the decay configuration. -/
structure CorrelationEngine where
  entries : List ProcessRisk
  decay_factor : ℚ
  window_sec : ℕ
deriving DecidableEq

/-- `correlation_init` (correlation.c). -/
def correlation_init (decay_factor : ℚ) (window_sec : ℕ) : CorrelationEngine :=
  { entries := [], decay_factor := decay_factor, window_sec := window_sec }

/-- A freshly `memset` entry with pid/tid filled in and activated, as built
by `find_or_create` (correlation.c). -/
def freshEntry (pid tid : ℤ) : ProcessRisk :=
  { pid := pid, tid := tid, anomaly_score := 0, total_samples := 0
    suspicious_samples := 0, last_seen_ns := 0, active := true }

/-- Predicate of the first scan in `find_or_create`: an active entry with
the given pid. -/
def matchesPid (pid : ℤ) (e : ProcessRisk) : Bool :=
  e.pid = pid && e.active

/-- `find_or_create` (correlation.c): find an active entry by pid, else
reuse the first inactive slot, else append while `count < CORR_MAX_TRACKED`,
else fail.  Returns the (possibly extended) engine and the entry index. -/
def find_or_create (eng : CorrelationEngine) (pid tid : ℤ) :
    Option (CorrelationEngine × ℕ) :=
  match eng.entries.findIdx? (matchesPid pid) with
  | some i => some (eng, i)
  | none =>
    match eng.entries.findIdx? (fun e => !e.active) with
    | some i =>
      some ({ eng with entries := eng.entries.set i (freshEntry pid tid) }, i)
    | none =>
      if eng.entries.length < CORR_MAX_TRACKED then
        some ({ eng with entries := eng.entries ++ [freshEntry pid tid] },
          eng.entries.length)
      else none

/-- The per-entry mutation done by `correlation_update` (correlation.c):
counter bump, last-seen stamp, EMA with `alpha = 0.3`, suspicious counter
when `score > 0.5`. -/
def update_entry (e : ProcessRisk) (score : ℚ) (timestamp_ns : ℕ) : ProcessRisk :=
  let alpha : ℚ := 0.3
  { e with
    total_samples := e.total_samples + 1
    last_seen_ns := timestamp_ns
    anomaly_score := alpha * score + (1 - alpha) * e.anomaly_score
    suspicious_samples :=
      if score > 0.5 then e.suspicious_samples + 1 else e.suspicious_samples }

/-- Replace the element at index `i` (no-op when out of range); used to
model the in-place entry mutation. -/
def listModify (l : List ProcessRisk) (i : ℕ) (f : ProcessRisk → ProcessRisk) :
    List ProcessRisk :=
  match l.get? i with
  | some a => l.set i (f a)
  | none => l

/-- `correlation_update` (correlation.c). -/
def correlation_update (eng : CorrelationEngine) (pid tid : ℤ) (score : ℚ)
    (timestamp_ns : ℕ) : CorrelationEngine :=
  match find_or_create eng pid tid with
  | none => eng
  | some (eng', i) =>
    { eng' with entries :=
        listModify eng'.entries i fun e => update_entry e score timestamp_ns }

/-- The per-entry action of `correlation_decay` (correlation.c): skip
inactive entries; deactivate entries older than the window (`uint64`
subtraction for the age); otherwise decay the score, snapping values below
`1e-3` to exactly 0. -/
def decay_entry (decay_factor : ℚ) (window_ns now_ns : ℕ) (e : ProcessRisk) :
    ProcessRisk :=
  if e.active = false then e
  else
    let age := sub64 now_ns e.last_seen_ns
    if window_ns < age then { e with active := false }
    else
      let yss := e.anomaly_score * decay_factor
      { e with anomaly_score := if yss < 1e-3 then 0 else yss }

/-- `correlation_decay` (correlation.c). -/
def correlation_decay (eng : CorrelationEngine) (now_ns : ℕ) : CorrelationEngine :=
  let window_ns := eng.window_sec * 1000000000
  { eng with entries :=
      eng.entries.map (decay_entry eng.decay_factor window_ns now_ns) }

/-- The score recurrence of `correlation_update` iterated `k` times with a
constant input score `v` (EMA with `alpha = 0.3`). -/
def emaIter (v s0 : ℚ) : ℕ → ℚ
  | 0 => s0
  | k + 1 => 0.3 * v + (1 - 0.3) * emaIter v s0 k

/-- Little-endian byte serialization of the low `k` bytes of `n` (the
memory image of a `k`-byte unsigned integer field on x86-64). -/
def leBytes : ℕ → ℕ → List ℕ
  | 0, _ => []
  | k + 1, n => n % 256 :: leBytes k (n / 256)

/-- Read back a little-endian byte list as an unsigned integer. -/
def fromLE (l : List ℕ) : ℕ :=
  l.foldr (fun b acc => b + 256 * acc) 0

/-- `ipc_sample_wire_t` (ipc_socket.h): the packed wire record.  The three
32-bit float fields are represented by their IEEE-754 bit patterns. -/
structure WireSample where
  timestamp_ns : ℕ
  cache_references : ℕ
  cache_misses : ℕ
  branch_instructions : ℕ
  branch_misses : ℕ
  cycles : ℕ
  instructions : ℕ
  cache_miss_rate_bits : ℕ
  branch_miss_rate_bits : ℕ
  ipc_bits : ℕ
deriving DecidableEq

/-- The field-by-field copy in `ipc_socket_send` (ipc_socket.c building an
`ipc_sample_wire_t` from a `telemetry_sample_t`); `f32` is the IEEE-754
bit-pattern encoding of a 32-bit float. -/
def sample_to_wire (f32 : ℚ → ℕ) (s : Sample) : WireSample :=
  { timestamp_ns := s.timestamp_ns
    cache_references := s.cache_references
    cache_misses := s.cache_misses
    branch_instructions := s.branch_instructions
    branch_misses := s.branch_misses
    cycles := s.cycles
    instructions := s.instructions
    cache_miss_rate_bits := f32 s.cache_miss_rate
    branch_miss_rate_bits := f32 s.branch_miss_rate
    ipc_bits := f32 s.ipc }

/-- The memory image of the packed `ipc_sample_wire_t` on x86-64
(little-endian, `__attribute__((packed))`, fields in declaration order):
the datagram payload passed to `send`. -/
def wire_encode (wire : WireSample) : List ℕ :=
  leBytes 8 wire.timestamp_ns ++
  leBytes 8 wire.cache_references ++
  leBytes 8 wire.cache_misses ++
  leBytes 8 wire.branch_instructions ++
  leBytes 8 wire.branch_misses ++
  leBytes 8 wire.cycles ++
  leBytes 8 wire.instructions ++
  leBytes 4 wire.cache_miss_rate_bits ++
  leBytes 4 wire.branch_miss_rate_bits ++
  leBytes 4 wire.ipc_bits

/-- Reading a 68-byte datagram back into an `ipc_sample_wire_t` (what the
ML consumer does with `struct.unpack`); rejects any other length. -/
def wire_decode (bytes : List ℕ) : Option WireSample :=
  if bytes.length = 68 then
    some
      { timestamp_ns := fromLE (bytes.take 8)
        cache_references := fromLE ((bytes.drop 8).take 8)
        cache_misses := fromLE ((bytes.drop 16).take 8)
        branch_instructions := fromLE ((bytes.drop 24).take 8)
        branch_misses := fromLE ((bytes.drop 32).take 8)
        cycles := fromLE ((bytes.drop 40).take 8)
        instructions := fromLE ((bytes.drop 48).take 8)
        cache_miss_rate_bits := fromLE ((bytes.drop 56).take 4)
        branch_miss_rate_bits := fromLE ((bytes.drop 60).take 4)
        ipc_bits := fromLE ((bytes.drop 64).take 4) }
  else none

/-- The sign of a first difference, as computed inside
`detect_oscillation`. -/
def diffSign (d : ℚ) : ℤ :=
  if 0 < d then 1 else if d < 0 then -1 else 0

/-- Specification-side count of sign changes in a list of first
differences, carrying the previous nonzero direction: a zero difference
neither counts as a change nor resets the previous direction
(spec §4.4 "Oscillation"). -/
def signChangesAux (prev : ℤ) : List ℚ → ℕ
  | [] => 0
  | d :: rest =>
    let dir := diffSign d
    (if dir ≠ 0 ∧ dir ≠ prev ∧ prev ≠ 0 then 1 else 0) +
      signChangesAux (if dir ≠ 0 then dir else prev) rest

/-- Sign changes of a difference list, starting with no previous
direction. -/
def signChanges (l : List ℚ) : ℕ := signChangesAux 0 l

/-- First differences of a sequence of values (spec §4.4: "the first
difference over the window"). -/
def firstDiffs : List ℚ → List ℚ
  | a :: b :: rest => (b - a) :: firstDiffs (b :: rest)
  | _ => []

/-- The circular window read in chronological order, oldest value first:
slot `start` holds the oldest value once `start` is the current insertion
index. -/
def windowSeq (buf : ℕ → ℚ) (cap start : ℕ) : List ℚ :=
  (List.range cap).map fun j => buf ((start + j) % cap)

/-- Alternation count of a sign sequence: the number of adjacent unequal
pairs.  With the zero signs filtered out this is the spec-side "number of
sign changes". -/
def altCount : List ℤ → ℕ
  | a :: b :: rest => (if a ≠ b then 1 else 0) + altCount (b :: rest)
  | _ => 0

/-- The nonzero signs of a list of first differences, in order. -/
def nonzeroSigns (l : List ℚ) : List ℤ :=
  (l.map diffSign).filter (fun d => d ≠ 0)

/-! ## Helper lemmas -/

theorem w64_eq : w64 = 2 ^ 64 := rfl

theorem sub64_one {c : ℕ} (h1 : 1 ≤ c) (h2 : c ≤ w64) : sub64 c 1 = c - 1 := by
  have hw : (0:ℕ) < w64 := by norm_num [w64]
  have h3 : c + (w64 - 1) = (c - 1) + w64 := by omega
  have h4 : c - 1 < w64 := by omega
  rw [sub64, h3, Nat.add_mod_right, Nat.mod_eq_of_lt h4]

theorem land_two_pow_sub_one (x k : ℕ) : x &&& (2 ^ k - 1) = x % 2 ^ k := by
  apply Nat.eq_of_testBit_eq
  intro i
  simp [Nat.testBit_and, Nat.testBit_mod_two_pow, Bool.and_comm]

/-! ## C6: derived telemetry ratios -/

/-- **C6.**  For every PMU delta reading, the derived ratios of the sample
built by `compute_derived` satisfy `cache_miss_rate = cache_misses /
instructions`, `branch_miss_rate = branch_misses / branch_instructions` and
`ipc = instructions / cycles`, each ratio being exactly zero when its
denominator is zero, and all three ratios are nonnegative. -/
theorem derived_ratios_spec (s : Sample) (r : PmuReading) :
    ((compute_derived s r).cache_miss_rate
        = (r.cache_misses : ℚ) / (r.instructions : ℚ)) ∧
    (r.instructions = 0 → (compute_derived s r).cache_miss_rate = 0) ∧
    (0 ≤ (compute_derived s r).cache_miss_rate) ∧
    ((compute_derived s r).branch_miss_rate
        = (r.branch_misses : ℚ) / (r.branch_instructions : ℚ)) ∧
    (r.branch_instructions = 0 → (compute_derived s r).branch_miss_rate = 0) ∧
    (0 ≤ (compute_derived s r).branch_miss_rate) ∧
    ((compute_derived s r).ipc = (r.instructions : ℚ) / (r.cycles : ℚ)) ∧
    (r.cycles = 0 → (compute_derived s r).ipc = 0) ∧
    (0 ≤ (compute_derived s r).ipc) := by
  unfold compute_derived
  refine ⟨?_, ?_, ?_, ?_, ?_, ?_, ?_, ?_, ?_⟩ <;> simp only
  · rcases Nat.eq_zero_or_pos r.instructions with h | h
    · simp [h]
    · simp [h]
  · intro h; simp [h]
  · split <;> positivity
  · rcases Nat.eq_zero_or_pos r.branch_instructions with h | h
    · simp [h]
    · simp [h]
  · intro h; simp [h]
  · split <;> positivity
  · rcases Nat.eq_zero_or_pos r.cycles with h | h
    · simp [h]
    · simp [h]
  · intro h; simp [h]
  · split <;> positivity

/-! ## C10: detection is inert while the baseline is not ready -/

/-- **C10.**  If `anomaly_detect` runs while `baseline.ready` is false, the
result is entirely zero and the engine (window contents, window index,
consecutive-anomaly counter, learning accumulators) is returned
unchanged. -/
theorem detect_not_ready_inert (eng : AnomalyEngine) (s : Sample)
    (h : eng.baseline.ready = false) :
    anomaly_detect eng s = (eng, zeroResult) := by
  unfold anomaly_detect
  rw [h]
  simp

/-- Witness for C10 at a concrete engine: a freshly initialized engine is
not ready, and detection leaves it untouched with an all-zero result. -/
theorem detect_not_ready_inert_witness :
    (anomaly_init 4 10).baseline.ready = false ∧
    anomaly_detect (anomaly_init 4 10) zeroSample = (anomaly_init 4 10, zeroResult) :=
  ⟨rfl, detect_not_ready_inert (anomaly_init 4 10) zeroSample rfl⟩

/-! ## Learning-phase accumulation lemmas -/

theorem learnList_cons (e : AnomalyEngine) (s : Sample) (l : List Sample) :
    learnList e (s :: l) = learnList (anomaly_learn e s) l := rfl

theorem learnList_config (e : AnomalyEngine) (l : List Sample) :
    (learnList e l).baseline = e.baseline ∧
    (learnList e l).z_threshold = e.z_threshold ∧
    (learnList e l).burst_window = e.burst_window := by
  induction l generalizing e with
  | nil => exact ⟨rfl, rfl, rfl⟩
  | cons s rest ih => simpa [learnList_cons] using ih (anomaly_learn e s)

theorem learnList_sums (e : AnomalyEngine) (l : List Sample) :
    (learnList e l).n = e.n + l.length ∧
    (learnList e l).sum_cmr = e.sum_cmr + (l.map fun s => s.cache_miss_rate).sum ∧
    (learnList e l).sum_cmr2
      = e.sum_cmr2 + (l.map fun s => s.cache_miss_rate * s.cache_miss_rate).sum ∧
    (learnList e l).sum_bmr = e.sum_bmr + (l.map fun s => s.branch_miss_rate).sum ∧
    (learnList e l).sum_bmr2
      = e.sum_bmr2 + (l.map fun s => s.branch_miss_rate * s.branch_miss_rate).sum ∧
    (learnList e l).sum_ipc = e.sum_ipc + (l.map fun s => s.ipc).sum ∧
    (learnList e l).sum_ipc2 = e.sum_ipc2 + (l.map fun s => s.ipc * s.ipc).sum := by
  induction l generalizing e with
  | nil => simp [learnList]
  | cons s rest ih =>
    obtain ⟨h1, h2, h3, h4, h5, h6, h7⟩ := ih (anomaly_learn e s)
    rw [learnList_cons]
    refine ⟨?_, ?_, ?_, ?_, ?_, ?_, ?_⟩
    · rw [h1]; simp [anomaly_learn]; omega
    · rw [h2]; simp [anomaly_learn]; ring
    · rw [h3]; simp [anomaly_learn]; ring
    · rw [h4]; simp [anomaly_learn]; ring
    · rw [h5]; simp [anomaly_learn]; ring
    · rw [h6]; simp [anomaly_learn]; ring
    · rw [h7]; simp [anomaly_learn]; ring

theorem sum_of_constant (l : List Sample) (f : Sample → ℚ) (c : ℚ)
    (h : ∀ s ∈ l, f s = c) : (l.map f).sum = (l.length : ℚ) * c := by
  induction l with
  | nil => simp
  | cons s rest ih =>
    have hs : f s = c := h s (by simp)
    have hr : ∀ x ∈ rest, f x = c := fun x hx => h x (by simp [hx])
    simp [hs, ih hr]
    ring

/-- Finalizing a baseline whose accumulators come from `n ≥ 1` identical
samples produces zero standard deviations (the variance collapses exactly,
is clamped, and `sqrt 0 = 0`). -/
theorem finalize_flat (sq : ℚ → ℚ) (hsq0 : sq 0 = 0) (e : AnomalyEngine)
    (c b p : ℚ) (hn : 1 ≤ e.n)
    (h1 : e.sum_cmr = (e.n : ℚ) * c) (h2 : e.sum_cmr2 = (e.n : ℚ) * (c * c))
    (h3 : e.sum_bmr = (e.n : ℚ) * b) (h4 : e.sum_bmr2 = (e.n : ℚ) * (b * b))
    (h5 : e.sum_ipc = (e.n : ℚ) * p) (h6 : e.sum_ipc2 = (e.n : ℚ) * (p * p)) :
    (anomaly_finalize_baseline sq e).baseline.ready = true ∧
    (anomaly_finalize_baseline sq e).baseline.std_cache_miss_rate = 0 ∧
    (anomaly_finalize_baseline sq e).baseline.std_branch_miss_rate = 0 ∧
    (anomaly_finalize_baseline sq e).baseline.std_ipc = 0 := by
  have hlt : ¬ e.n < 1 := by omega
  have hne : (e.n : ℚ) ≠ 0 := Nat.cast_ne_zero.mpr (by omega)
  have hvc : e.sum_cmr2 / (e.n : ℚ) - e.sum_cmr / (e.n : ℚ) * (e.sum_cmr / (e.n : ℚ)) = 0 := by
    rw [h1, h2]; field_simp
  have hvb : e.sum_bmr2 / (e.n : ℚ) - e.sum_bmr / (e.n : ℚ) * (e.sum_bmr / (e.n : ℚ)) = 0 := by
    rw [h3, h4]; field_simp
  have hvi : e.sum_ipc2 / (e.n : ℚ) - e.sum_ipc / (e.n : ℚ) * (e.sum_ipc / (e.n : ℚ)) = 0 := by
    rw [h5, h6]; field_simp
  unfold anomaly_finalize_baseline
  rw [if_neg hlt]
  refine ⟨rfl, ?_, ?_, ?_⟩ <;> simp only [hvc, hvb, hvi] <;>
    split <;> simp [hsq0]

/-- The z-scores reported by `anomaly_detect` on a ready baseline are
exactly `compute_z` of the sample value against the baseline mean and
standard deviation. -/
theorem detect_result_z (e : AnomalyEngine) (s : Sample)
    (h : e.baseline.ready = true) :
    (anomaly_detect e s).2.z_cache_miss
      = compute_z s.cache_miss_rate e.baseline.mean_cache_miss_rate
          e.baseline.std_cache_miss_rate ∧
    (anomaly_detect e s).2.z_branch_miss
      = compute_z s.branch_miss_rate e.baseline.mean_branch_miss_rate
          e.baseline.std_branch_miss_rate ∧
    (anomaly_detect e s).2.z_ipc
      = compute_z s.ipc e.baseline.mean_ipc e.baseline.std_ipc := by
  unfold anomaly_detect
  simp [h, z_cmr_of, z_bmr_of, z_ipc_of]

/-- **C2.**  On a ready baseline every z-score is `(x - mean) / std`,
except that a standard deviation below `1e-12` forces the z-score to be
exactly 0; consequently, after a learning phase (of at least one sample)
in which every sample had identical metric values, every subsequent
detection sample yields all three z-scores equal to 0. -/
theorem zscore_flat_baseline (sq : ℚ → ℚ) (hsq0 : sq 0 = 0) (zt : ℚ) (bw : ℕ)
    (l : List Sample) (hl : l ≠ []) (c b p : ℚ)
    (hall : ∀ s ∈ l, s.cache_miss_rate = c ∧ s.branch_miss_rate = b ∧ s.ipc = p) :
    (∀ (e : AnomalyEngine) (s : Sample), e.baseline.ready = true →
      ((e.baseline.std_cache_miss_rate < 1e-12 →
          (anomaly_detect e s).2.z_cache_miss = 0) ∧
       (¬ e.baseline.std_cache_miss_rate < 1e-12 →
          (anomaly_detect e s).2.z_cache_miss
            = (s.cache_miss_rate - e.baseline.mean_cache_miss_rate)
                / e.baseline.std_cache_miss_rate) ∧
       (e.baseline.std_branch_miss_rate < 1e-12 →
          (anomaly_detect e s).2.z_branch_miss = 0) ∧
       (¬ e.baseline.std_branch_miss_rate < 1e-12 →
          (anomaly_detect e s).2.z_branch_miss
            = (s.branch_miss_rate - e.baseline.mean_branch_miss_rate)
                / e.baseline.std_branch_miss_rate) ∧
       (e.baseline.std_ipc < 1e-12 → (anomaly_detect e s).2.z_ipc = 0) ∧
       (¬ e.baseline.std_ipc < 1e-12 →
          (anomaly_detect e s).2.z_ipc
            = (s.ipc - e.baseline.mean_ipc) / e.baseline.std_ipc))) ∧
    ((anomaly_finalize_baseline sq (learnList (anomaly_init zt bw) l)).baseline.ready
        = true) ∧
    (∀ s : Sample,
      (anomaly_detect (anomaly_finalize_baseline sq (learnList (anomaly_init zt bw) l)) s).2.z_cache_miss = 0 ∧
      (anomaly_detect (anomaly_finalize_baseline sq (learnList (anomaly_init zt bw) l)) s).2.z_branch_miss = 0 ∧
      (anomaly_detect (anomaly_finalize_baseline sq (learnList (anomaly_init zt bw) l)) s).2.z_ipc = 0) := by
  constructor
  · intro e s hready
    obtain ⟨hz1, hz2, hz3⟩ := detect_result_z e s hready
    refine ⟨fun h => ?_, fun h => ?_, fun h => ?_, fun h => ?_, fun h => ?_, fun h => ?_⟩ <;>
      simp [hz1, hz2, hz3, compute_z, h]
  · have hlen : 1 ≤ l.length := by
      cases l with
      | nil => exact absurd rfl hl
      | cons a t => simp
    obtain ⟨hn, hs1, hs2, hs3, hs4, hs5, hs6⟩ := learnList_sums (anomaly_init zt bw) l
    have e0 := learnList (anomaly_init zt bw) l
    have hn' : (learnList (anomaly_init zt bw) l).n = l.length := by
      simpa [anomaly_init] using hn
    have hflat := finalize_flat sq hsq0 (learnList (anomaly_init zt bw) l) c b p
      (by omega)
      (by rw [hs1, hn', sum_of_constant l _ c (fun s hs => (hall s hs).1)]
          simp [anomaly_init])
      (by rw [hs2, hn', sum_of_constant l _ (c * c)
            (fun s hs => by rw [(hall s hs).1])]
          simp [anomaly_init])
      (by rw [hs3, hn', sum_of_constant l _ b (fun s hs => (hall s hs).2.1)]
          simp [anomaly_init])
      (by rw [hs4, hn', sum_of_constant l _ (b * b)
            (fun s hs => by rw [(hall s hs).2.1])]
          simp [anomaly_init])
      (by rw [hs5, hn', sum_of_constant l _ p (fun s hs => (hall s hs).2.2)]
          simp [anomaly_init])
      (by rw [hs6, hn', sum_of_constant l _ (p * p)
            (fun s hs => by rw [(hall s hs).2.2])]
          simp [anomaly_init])
    obtain ⟨hready, hstd1, hstd2, hstd3⟩ := hflat
    refine ⟨hready, fun s => ?_⟩
    obtain ⟨hz1, hz2, hz3⟩ := detect_result_z _ s hready
    have heps : (0 : ℚ) < 1e-12 := by norm_num
    refine ⟨?_, ?_, ?_⟩
    · rw [hz1, hstd1, compute_z, if_pos heps]
    · rw [hz2, hstd2, compute_z, if_pos heps]
    · rw [hz3, hstd3, compute_z, if_pos heps]

/-- Witness for C2: concrete flat learning phase with one all-zero sample
and the identity as the square root. -/
theorem zscore_flat_baseline_witness :
    ((fun x : ℚ => x) 0 = 0 ∧ [zeroSample] ≠ [] ∧
      (∀ s ∈ [zeroSample],
        s.cache_miss_rate = 0 ∧ s.branch_miss_rate = 0 ∧ s.ipc = 0)) ∧
    (∀ s : Sample,
      (anomaly_detect (anomaly_finalize_baseline (fun x : ℚ => x)
          (learnList (anomaly_init 4 10) [zeroSample])) s).2.z_cache_miss = 0 ∧
      (anomaly_detect (anomaly_finalize_baseline (fun x : ℚ => x)
          (learnList (anomaly_init 4 10) [zeroSample])) s).2.z_branch_miss = 0 ∧
      (anomaly_detect (anomaly_finalize_baseline (fun x : ℚ => x)
          (learnList (anomaly_init 4 10) [zeroSample])) s).2.z_ipc = 0) :=
  ⟨⟨rfl, by simp, by simp [zeroSample]⟩,
    (zscore_flat_baseline (fun x : ℚ => x) rfl 4 10 [zeroSample] (by simp) 0 0 0
      (by simp [zeroSample])).2.2⟩

/-! ## C7: baseline readiness lifecycle and finalize idempotence -/

/-- **C7.**  `ready` starts false, is set true exactly by finalization over
at least one learning sample, and never regresses (learning and detection
leave the baseline unchanged, finalization preserves readiness, and a
finalization without samples is a no-op); every standard deviation written
by finalization is the square root of a clamped, nonnegative variance and
is therefore nonnegative; finalizing twice without intervening learning
changes nothing. -/
theorem clamp_nonneg (x : ℚ) : 0 ≤ if x < 0 then (0 : ℚ) else x := by
  split
  · exact le_refl 0
  · next h => exact le_of_not_lt h

theorem finalize_n (sq : ℚ → ℚ) (e : AnomalyEngine) :
    (anomaly_finalize_baseline sq e).n = e.n := by
  unfold anomaly_finalize_baseline; split <;> rfl

theorem finalize_sum_cmr (sq : ℚ → ℚ) (e : AnomalyEngine) :
    (anomaly_finalize_baseline sq e).sum_cmr = e.sum_cmr := by
  unfold anomaly_finalize_baseline; split <;> rfl

theorem finalize_sum_cmr2 (sq : ℚ → ℚ) (e : AnomalyEngine) :
    (anomaly_finalize_baseline sq e).sum_cmr2 = e.sum_cmr2 := by
  unfold anomaly_finalize_baseline; split <;> rfl

theorem finalize_sum_bmr (sq : ℚ → ℚ) (e : AnomalyEngine) :
    (anomaly_finalize_baseline sq e).sum_bmr = e.sum_bmr := by
  unfold anomaly_finalize_baseline; split <;> rfl

theorem finalize_sum_bmr2 (sq : ℚ → ℚ) (e : AnomalyEngine) :
    (anomaly_finalize_baseline sq e).sum_bmr2 = e.sum_bmr2 := by
  unfold anomaly_finalize_baseline; split <;> rfl

theorem finalize_sum_ipc (sq : ℚ → ℚ) (e : AnomalyEngine) :
    (anomaly_finalize_baseline sq e).sum_ipc = e.sum_ipc := by
  unfold anomaly_finalize_baseline; split <;> rfl

theorem finalize_sum_ipc2 (sq : ℚ → ℚ) (e : AnomalyEngine) :
    (anomaly_finalize_baseline sq e).sum_ipc2 = e.sum_ipc2 := by
  unfold anomaly_finalize_baseline; split <;> rfl

theorem finalize_zt (sq : ℚ → ℚ) (e : AnomalyEngine) :
    (anomaly_finalize_baseline sq e).z_threshold = e.z_threshold := by
  unfold anomaly_finalize_baseline; split <;> rfl

theorem finalize_bw (sq : ℚ → ℚ) (e : AnomalyEngine) :
    (anomaly_finalize_baseline sq e).burst_window = e.burst_window := by
  unfold anomaly_finalize_baseline; split <;> rfl

theorem finalize_consec (sq : ℚ → ℚ) (e : AnomalyEngine) :
    (anomaly_finalize_baseline sq e).consecutive_anomalies
      = e.consecutive_anomalies := by
  unfold anomaly_finalize_baseline; split <;> rfl

theorem finalize_recent_cmr (sq : ℚ → ℚ) (e : AnomalyEngine) :
    (anomaly_finalize_baseline sq e).recent_cmr = e.recent_cmr := by
  unfold anomaly_finalize_baseline; split <;> rfl

theorem finalize_recent_idx (sq : ℚ → ℚ) (e : AnomalyEngine) :
    (anomaly_finalize_baseline sq e).recent_idx = e.recent_idx := by
  unfold anomaly_finalize_baseline; split <;> rfl

theorem finalize_recent_cap (sq : ℚ → ℚ) (e : AnomalyEngine) :
    (anomaly_finalize_baseline sq e).recent_cap = e.recent_cap := by
  unfold anomaly_finalize_baseline; split <;> rfl

theorem baseline_lifecycle (sq : ℚ → ℚ) (hsq : ∀ x : ℚ, 0 ≤ x → 0 ≤ sq x)
    (e : AnomalyEngine) (hn : 1 ≤ e.n) :
    (∀ (zt : ℚ) (bw : ℕ), (anomaly_init zt bw).baseline.ready = false) ∧
    ((anomaly_finalize_baseline sq e).baseline.ready = true) ∧
    (∀ (e' : AnomalyEngine) (s : Sample),
      (anomaly_learn e' s).baseline = e'.baseline) ∧
    (∀ (e' : AnomalyEngine) (s : Sample),
      ((anomaly_detect e' s).1).baseline = e'.baseline) ∧
    (∀ e' : AnomalyEngine, e'.baseline.ready = true →
      (anomaly_finalize_baseline sq e').baseline.ready = true) ∧
    (∀ e' : AnomalyEngine, e'.n = 0 → anomaly_finalize_baseline sq e' = e') ∧
    (0 ≤ (anomaly_finalize_baseline sq e).baseline.std_cache_miss_rate) ∧
    (0 ≤ (anomaly_finalize_baseline sq e).baseline.std_branch_miss_rate) ∧
    (0 ≤ (anomaly_finalize_baseline sq e).baseline.std_ipc) ∧
    (anomaly_finalize_baseline sq (anomaly_finalize_baseline sq e)
      = anomaly_finalize_baseline sq e) := by
  have hlt : ¬ e.n < 1 := by omega
  refine ⟨fun zt bw => rfl, ?_, fun e' s => rfl, ?_, ?_, ?_, ?_, ?_, ?_, ?_⟩
  · unfold anomaly_finalize_baseline
    rw [if_neg hlt]
  · intro e' s
    unfold anomaly_detect
    split <;> rfl
  · intro e' h
    unfold anomaly_finalize_baseline
    split
    · exact h
    · rfl
  · intro e' h
    unfold anomaly_finalize_baseline
    rw [if_pos (by omega)]
  · unfold anomaly_finalize_baseline
    rw [if_neg hlt]
    apply hsq
    split
    · exact clamp_nonneg _
    · exact le_refl 0
  · unfold anomaly_finalize_baseline
    rw [if_neg hlt]
    apply hsq
    split
    · exact clamp_nonneg _
    · exact le_refl 0
  · unfold anomaly_finalize_baseline
    rw [if_neg hlt]
    apply hsq
    split
    · exact clamp_nonneg _
    · exact le_refl 0
  · have hn2 : ¬ (anomaly_finalize_baseline sq e).n < 1 := by
      rw [finalize_n]; omega
    conv_lhs => rw [anomaly_finalize_baseline]
    rw [if_neg hn2]
    simp only [finalize_n, finalize_sum_cmr, finalize_sum_cmr2, finalize_sum_bmr,
      finalize_sum_bmr2, finalize_sum_ipc, finalize_sum_ipc2, finalize_zt,
      finalize_bw, finalize_consec, finalize_recent_cmr, finalize_recent_idx,
      finalize_recent_cap]
    conv_rhs => rw [anomaly_finalize_baseline]
    rw [if_neg hlt]

/-- Witness for C7: the identity as square root (nonnegative on
nonnegative inputs) and a concrete engine holding one learned sample. -/
theorem baseline_lifecycle_witness :
    ((∀ x : ℚ, 0 ≤ x → 0 ≤ (fun y : ℚ => y) x) ∧
      1 ≤ (anomaly_learn (anomaly_init 4 10) zeroSample).n) ∧
    ((∀ (zt : ℚ) (bw : ℕ), (anomaly_init zt bw).baseline.ready = false) ∧
    ((anomaly_finalize_baseline (fun y : ℚ => y)
        (anomaly_learn (anomaly_init 4 10) zeroSample)).baseline.ready = true) ∧
    (∀ (e' : AnomalyEngine) (s : Sample),
      (anomaly_learn e' s).baseline = e'.baseline) ∧
    (∀ (e' : AnomalyEngine) (s : Sample),
      ((anomaly_detect e' s).1).baseline = e'.baseline) ∧
    (∀ e' : AnomalyEngine, e'.baseline.ready = true →
      (anomaly_finalize_baseline (fun y : ℚ => y) e').baseline.ready = true) ∧
    (∀ e' : AnomalyEngine, e'.n = 0 →
      anomaly_finalize_baseline (fun y : ℚ => y) e' = e') ∧
    (0 ≤ (anomaly_finalize_baseline (fun y : ℚ => y)
        (anomaly_learn (anomaly_init 4 10) zeroSample)).baseline.std_cache_miss_rate) ∧
    (0 ≤ (anomaly_finalize_baseline (fun y : ℚ => y)
        (anomaly_learn (anomaly_init 4 10) zeroSample)).baseline.std_branch_miss_rate) ∧
    (0 ≤ (anomaly_finalize_baseline (fun y : ℚ => y)
        (anomaly_learn (anomaly_init 4 10) zeroSample)).baseline.std_ipc) ∧
    (anomaly_finalize_baseline (fun y : ℚ => y)
        (anomaly_finalize_baseline (fun y : ℚ => y)
          (anomaly_learn (anomaly_init 4 10) zeroSample))
      = anomaly_finalize_baseline (fun y : ℚ => y)
          (anomaly_learn (anomaly_init 4 10) zeroSample))) :=
  ⟨⟨fun x hx => hx, by decide⟩,
    baseline_lifecycle (fun y : ℚ => y) (fun x hx => hx)
      (anomaly_learn (anomaly_init 4 10) zeroSample) (by decide)⟩

/-! ## C8: correlation EMA update, convergence, and decay -/

theorem get?_set_self (l : List ProcessRisk) (i : ℕ) (a b : ProcessRisk)
    (h : l.get? i = some a) : (l.set i b).get? i = some b := by
  have hlt : i < l.length := List.get?_eq_some.mp h |>.1
  rw [List.get?_eq_getElem?, List.getElem?_set_self']
  simp [List.getElem?_eq_getElem hlt]

theorem emaIter_sub (v s0 : ℚ) (k : ℕ) :
    emaIter v s0 k - v = (7 / 10) ^ k * (s0 - v) := by
  induction k with
  | zero => simp [emaIter]
  | succ k ih =>
    have h : emaIter v s0 k = v + (7 / 10) ^ k * (s0 - v) := by
      rw [← ih]; ring
    rw [emaIter, h, pow_succ]
    norm_num
    ring

/-- **C8.**  `correlation_update` applies the EMA
`score_new = 0.3·score + 0.7·score_old` to the entry found for the pid;
iterating that recurrence with a constant input `v` approaches `v`
monotonically (the signed gap shrinks geometrically by `7/10`, its absolute
value is antitone, and it eventually falls below any positive bound); and
`correlation_decay` deactivates every active entry whose 64-bit age exceeds
the window and otherwise multiplies the score by the decay factor, snapping
results below `1e-3` to exactly 0. -/
theorem correlation_ema_decay (eng : CorrelationEngine) (pid tid : ℤ) (v : ℚ)
    (t : ℕ) (i : ℕ) (en : ProcessRisk)
    (hfind : eng.entries.findIdx? (matchesPid pid) = some i)
    (hget : eng.entries.get? i = some en) :
    ((correlation_update eng pid tid v t).entries.get? i
        = some (update_entry en v t)) ∧
    ((update_entry en v t).anomaly_score = 0.3 * v + (1 - 0.3) * en.anomaly_score) ∧
    (∀ k : ℕ, emaIter v en.anomaly_score k - v
        = (7 / 10) ^ k * (en.anomaly_score - v)) ∧
    (∀ k : ℕ, |emaIter v en.anomaly_score (k + 1) - v|
        ≤ |emaIter v en.anomaly_score k - v|) ∧
    (∀ ε : ℚ, 0 < ε → ∃ N : ℕ, ∀ k : ℕ, N ≤ k →
        |emaIter v en.anomaly_score k - v| < ε) ∧
    (∀ (now j : ℕ) (en' : ProcessRisk), eng.entries.get? j = some en' →
      ((correlation_decay eng now).entries.get? j
          = some (decay_entry eng.decay_factor (eng.window_sec * 1000000000) now en')) ∧
      (en'.active = true →
        eng.window_sec * 1000000000 < sub64 now en'.last_seen_ns →
        decay_entry eng.decay_factor (eng.window_sec * 1000000000) now en'
          = { en' with active := false }) ∧
      (en'.active = true →
        sub64 now en'.last_seen_ns ≤ eng.window_sec * 1000000000 →
        decay_entry eng.decay_factor (eng.window_sec * 1000000000) now en'
          = { en' with anomaly_score :=
              if en'.anomaly_score * eng.decay_factor < 1e-3 then 0
              else en'.anomaly_score * eng.decay_factor })) := by
  refine ⟨?_, rfl, emaIter_sub v en.anomaly_score, ?_, ?_, ?_⟩
  · unfold correlation_update find_or_create
    rw [hfind]
    simp only [listModify, hget]
    exact get?_set_self _ _ _ _ hget
  · intro k
    have h : emaIter v en.anomaly_score (k + 1) - v
        = (7 / 10) * (emaIter v en.anomaly_score k - v) := by
      rw [emaIter_sub, emaIter_sub, pow_succ]; ring
    rw [h, abs_mul]
    have h7 : |(7 : ℚ) / 10| = 7 / 10 := by norm_num
    rw [h7]
    nlinarith [abs_nonneg (emaIter v en.anomaly_score k - v)]
  · intro ε hε
    rcases eq_or_ne (en.anomaly_score - v) 0 with hd | hd
    · refine ⟨0, fun k _ => ?_⟩
      rw [emaIter_sub, hd, mul_zero, abs_zero]
      exact hε
    · have hdpos : 0 < |en.anomaly_score - v| := abs_pos.mpr hd
      obtain ⟨N, hN⟩ := exists_pow_lt_of_lt_one
        (div_pos hε hdpos) (by norm_num : (7 : ℚ) / 10 < 1)
      refine ⟨N, fun k hk => ?_⟩
      rw [emaIter_sub, abs_mul]
      have h7 : |((7 : ℚ) / 10) ^ k| = (7 / 10) ^ k := by
        rw [abs_pow]
        norm_num [abs_of_nonneg]
      rw [h7]
      have hmono : ((7 : ℚ) / 10) ^ k ≤ (7 / 10) ^ N :=
        pow_le_pow_of_le_one (by norm_num) (by norm_num) hk
      have : ((7 : ℚ) / 10) ^ k < ε / |en.anomaly_score - v| :=
        lt_of_le_of_lt hmono hN
      calc ((7 : ℚ) / 10) ^ k * |en.anomaly_score - v|
          < ε / |en.anomaly_score - v| * |en.anomaly_score - v| := by
            exact mul_lt_mul_of_pos_right this hdpos
        _ = ε := div_mul_cancel₀ ε (ne_of_gt hdpos)
  · intro now j en' hget'
    refine ⟨?_, ?_, ?_⟩
    · unfold correlation_decay
      simp only [List.get?_map, hget', Option.map_some']
    · intro hact hage
      unfold decay_entry
      rw [hact]
      simp only [Bool.true_eq_false, if_false]
      rw [if_pos hage]
    · intro hact hage
      unfold decay_entry
      rw [hact]
      simp only [Bool.true_eq_false, if_false]
      rw [if_neg (not_lt.mpr hage)]

/-- Witness for C8 at a concrete one-entry table: pid 7 is found at index
0, and all conclusions hold for score input 1 at time 5. -/
theorem correlation_ema_decay_witness :
    ((CorrelationEngine.mk [⟨7, 7, 0, 0, 0, 0, true⟩] 0.95 30).entries.findIdx?
        (matchesPid 7) = some 0 ∧
     (CorrelationEngine.mk [⟨7, 7, 0, 0, 0, 0, true⟩] 0.95 30).entries.get? 0
        = some ⟨7, 7, 0, 0, 0, 0, true⟩) ∧
    (((correlation_update (CorrelationEngine.mk [⟨7, 7, 0, 0, 0, 0, true⟩] 0.95 30)
          7 7 1 5).entries.get? 0
        = some (update_entry ⟨7, 7, 0, 0, 0, 0, true⟩ 1 5)) ∧
    ((update_entry (⟨7, 7, 0, 0, 0, 0, true⟩ : ProcessRisk) 1 5).anomaly_score
        = 0.3 * 1 + (1 - 0.3) * (⟨7, 7, 0, 0, 0, 0, true⟩ : ProcessRisk).anomaly_score) ∧
    (∀ k : ℕ, emaIter 1 (⟨7, 7, 0, 0, 0, 0, true⟩ : ProcessRisk).anomaly_score k - 1
        = (7 / 10) ^ k * ((⟨7, 7, 0, 0, 0, 0, true⟩ : ProcessRisk).anomaly_score - 1)) ∧
    (∀ k : ℕ, |emaIter 1 (⟨7, 7, 0, 0, 0, 0, true⟩ : ProcessRisk).anomaly_score (k + 1) - 1|
        ≤ |emaIter 1 (⟨7, 7, 0, 0, 0, 0, true⟩ : ProcessRisk).anomaly_score k - 1|) ∧
    (∀ ε : ℚ, 0 < ε → ∃ N : ℕ, ∀ k : ℕ, N ≤ k →
        |emaIter 1 (⟨7, 7, 0, 0, 0, 0, true⟩ : ProcessRisk).anomaly_score k - 1| < ε) ∧
    (∀ (now j : ℕ) (en' : ProcessRisk),
      (CorrelationEngine.mk [⟨7, 7, 0, 0, 0, 0, true⟩] 0.95 30).entries.get? j
          = some en' →
      ((correlation_decay (CorrelationEngine.mk [⟨7, 7, 0, 0, 0, 0, true⟩] 0.95 30)
            now).entries.get? j
          = some (decay_entry
              (CorrelationEngine.mk [⟨7, 7, 0, 0, 0, 0, true⟩] 0.95 30).decay_factor
              ((CorrelationEngine.mk [⟨7, 7, 0, 0, 0, 0, true⟩] 0.95 30).window_sec
                * 1000000000) now en')) ∧
      (en'.active = true →
        (CorrelationEngine.mk [⟨7, 7, 0, 0, 0, 0, true⟩] 0.95 30).window_sec
            * 1000000000 < sub64 now en'.last_seen_ns →
        decay_entry
            (CorrelationEngine.mk [⟨7, 7, 0, 0, 0, 0, true⟩] 0.95 30).decay_factor
            ((CorrelationEngine.mk [⟨7, 7, 0, 0, 0, 0, true⟩] 0.95 30).window_sec
              * 1000000000) now en'
          = { en' with active := false }) ∧
      (en'.active = true →
        sub64 now en'.last_seen_ns
            ≤ (CorrelationEngine.mk [⟨7, 7, 0, 0, 0, 0, true⟩] 0.95 30).window_sec
                * 1000000000 →
        decay_entry
            (CorrelationEngine.mk [⟨7, 7, 0, 0, 0, 0, true⟩] 0.95 30).decay_factor
            ((CorrelationEngine.mk [⟨7, 7, 0, 0, 0, 0, true⟩] 0.95 30).window_sec
              * 1000000000) now en'
          = { en' with anomaly_score :=
              if en'.anomaly_score
                  * (CorrelationEngine.mk [⟨7, 7, 0, 0, 0, 0, true⟩] 0.95 30).decay_factor
                  < 1e-3 then 0
              else en'.anomaly_score
                  * (CorrelationEngine.mk
                      [⟨7, 7, 0, 0, 0, 0, true⟩] 0.95 30).decay_factor }))) :=
  ⟨⟨rfl, rfl⟩,
    correlation_ema_decay (CorrelationEngine.mk [⟨7, 7, 0, 0, 0, 0, true⟩] 0.95 30)
      7 7 1 5 0 ⟨7, 7, 0, 0, 0, 0, true⟩ rfl rfl⟩

/-! ## C9: the packed IPC wire record -/

theorem leBytes_length (k n : ℕ) : (leBytes k n).length = k := by
  induction k generalizing n with
  | zero => rfl
  | succ k ih => simp [leBytes, ih]

theorem fromLE_leBytes (k n : ℕ) (h : n < 256 ^ k) : fromLE (leBytes k n) = n := by
  induction k generalizing n with
  | zero => simp at h; simp [h, leBytes, fromLE]
  | succ k ih =>
    have hdiv : n / 256 < 256 ^ k := by
      rw [Nat.div_lt_iff_lt_mul (by norm_num)]
      calc n < 256 ^ (k + 1) := h
        _ = 256 ^ k * 256 := by ring
    have := ih (n / 256) hdiv
    simp only [leBytes, fromLE, List.foldr_cons] at this ⊢
    rw [this, Nat.mod_add_div]

theorem take8_of_append (A R : List ℕ) (h : A.length = 8) : (A ++ R).take 8 = A := by
  rw [List.take_append_of_le_length (by omega), ← h, List.take_length]

theorem drop8_of_append (A R : List ℕ) (h : A.length = 8) : (A ++ R).drop 8 = R := by
  rw [List.drop_append_of_le_length (by omega), ← h, List.drop_length]
  simp

theorem take4_of_append (A R : List ℕ) (h : A.length = 4) : (A ++ R).take 4 = A := by
  rw [List.take_append_of_le_length (by omega), ← h, List.take_length]

theorem drop4_of_append (A R : List ℕ) (h : A.length = 4) : (A ++ R).drop 4 = R := by
  rw [List.drop_append_of_le_length (by omega), ← h, List.drop_length]
  simp

/-- In-range wire record: 64-bit counters, 32-bit float patterns. -/
def wireInRange (w : WireSample) : Prop :=
  w.timestamp_ns < 2 ^ 64 ∧ w.cache_references < 2 ^ 64 ∧
  w.cache_misses < 2 ^ 64 ∧ w.branch_instructions < 2 ^ 64 ∧
  w.branch_misses < 2 ^ 64 ∧ w.cycles < 2 ^ 64 ∧ w.instructions < 2 ^ 64 ∧
  w.cache_miss_rate_bits < 2 ^ 32 ∧ w.branch_miss_rate_bits < 2 ^ 32 ∧
  w.ipc_bits < 2 ^ 32

theorem wire_encode_length (w : WireSample) : (wire_encode w).length = 68 := by
  simp [wire_encode, leBytes_length]

theorem wire_decode_encode (w : WireSample) (h : wireInRange w) :
    wire_decode (wire_encode w) = some w := by
  obtain ⟨h1, h2, h3, h4, h5, h6, h7, h8, h9, h10⟩ := h
  have p64 : (256 : ℕ) ^ 8 = 2 ^ 64 := by norm_num
  have p32 : (256 : ℕ) ^ 4 = 2 ^ 32 := by norm_num
  have hb := wire_encode_length w
  have e0 : wire_encode w
      = leBytes 8 w.timestamp_ns ++ (leBytes 8 w.cache_references ++
        (leBytes 8 w.cache_misses ++ (leBytes 8 w.branch_instructions ++
        (leBytes 8 w.branch_misses ++ (leBytes 8 w.cycles ++
        (leBytes 8 w.instructions ++ (leBytes 4 w.cache_miss_rate_bits ++
        (leBytes 4 w.branch_miss_rate_bits ++ leBytes 4 w.ipc_bits)))))))) := rfl
  have d8 : (wire_encode w).drop 8
      = leBytes 8 w.cache_references ++ (leBytes 8 w.cache_misses ++
        (leBytes 8 w.branch_instructions ++ (leBytes 8 w.branch_misses ++
        (leBytes 8 w.cycles ++ (leBytes 8 w.instructions ++
        (leBytes 4 w.cache_miss_rate_bits ++ (leBytes 4 w.branch_miss_rate_bits ++
          leBytes 4 w.ipc_bits))))))) := by
    rw [e0, drop8_of_append _ _ (leBytes_length 8 _)]
  have d16 : (wire_encode w).drop 16
      = leBytes 8 w.cache_misses ++ (leBytes 8 w.branch_instructions ++
        (leBytes 8 w.branch_misses ++ (leBytes 8 w.cycles ++
        (leBytes 8 w.instructions ++ (leBytes 4 w.cache_miss_rate_bits ++
        (leBytes 4 w.branch_miss_rate_bits ++ leBytes 4 w.ipc_bits)))))) := by
    rw [show (16 : ℕ) = 8 + 8 by norm_num, ← List.drop_drop, d8,
      drop8_of_append _ _ (leBytes_length 8 _)]
  have d24 : (wire_encode w).drop 24
      = leBytes 8 w.branch_instructions ++ (leBytes 8 w.branch_misses ++
        (leBytes 8 w.cycles ++ (leBytes 8 w.instructions ++
        (leBytes 4 w.cache_miss_rate_bits ++ (leBytes 4 w.branch_miss_rate_bits ++
          leBytes 4 w.ipc_bits))))) := by
    rw [show (24 : ℕ) = 16 + 8 by norm_num, ← List.drop_drop, d16,
      drop8_of_append _ _ (leBytes_length 8 _)]
  have d32 : (wire_encode w).drop 32
      = leBytes 8 w.branch_misses ++ (leBytes 8 w.cycles ++
        (leBytes 8 w.instructions ++ (leBytes 4 w.cache_miss_rate_bits ++
        (leBytes 4 w.branch_miss_rate_bits ++ leBytes 4 w.ipc_bits)))) := by
    rw [show (32 : ℕ) = 24 + 8 by norm_num, ← List.drop_drop, d24,
      drop8_of_append _ _ (leBytes_length 8 _)]
  have d40 : (wire_encode w).drop 40
      = leBytes 8 w.cycles ++ (leBytes 8 w.instructions ++
        (leBytes 4 w.cache_miss_rate_bits ++ (leBytes 4 w.branch_miss_rate_bits ++
          leBytes 4 w.ipc_bits))) := by
    rw [show (40 : ℕ) = 32 + 8 by norm_num, ← List.drop_drop, d32,
      drop8_of_append _ _ (leBytes_length 8 _)]
  have d48 : (wire_encode w).drop 48
      = leBytes 8 w.instructions ++ (leBytes 4 w.cache_miss_rate_bits ++
        (leBytes 4 w.branch_miss_rate_bits ++ leBytes 4 w.ipc_bits)) := by
    rw [show (48 : ℕ) = 40 + 8 by norm_num, ← List.drop_drop, d40,
      drop8_of_append _ _ (leBytes_length 8 _)]
  have d56 : (wire_encode w).drop 56
      = leBytes 4 w.cache_miss_rate_bits ++ (leBytes 4 w.branch_miss_rate_bits ++
        leBytes 4 w.ipc_bits) := by
    rw [show (56 : ℕ) = 48 + 8 by norm_num, ← List.drop_drop, d48,
      drop8_of_append _ _ (leBytes_length 8 _)]
  have d60 : (wire_encode w).drop 60
      = leBytes 4 w.branch_miss_rate_bits ++ leBytes 4 w.ipc_bits := by
    rw [show (60 : ℕ) = 56 + 4 by norm_num, ← List.drop_drop, d56,
      drop4_of_append _ _ (leBytes_length 4 _)]
  have d64 : (wire_encode w).drop 64 = leBytes 4 w.ipc_bits := by
    rw [show (64 : ℕ) = 60 + 4 by norm_num, ← List.drop_drop, d60,
      drop4_of_append _ _ (leBytes_length 4 _)]
  have ht : (wire_encode w).take 8 = leBytes 8 w.timestamp_ns := by
    rw [e0, take8_of_append _ _ (leBytes_length 8 _)]
  have htake : ∀ (x : ℕ) (R : List ℕ), (leBytes 8 x ++ R).take 8 = leBytes 8 x :=
    fun x R => take8_of_append _ _ (leBytes_length 8 x)
  have htake4 : ∀ (x : ℕ) (R : List ℕ), (leBytes 4 x ++ R).take 4 = leBytes 4 x :=
    fun x R => take4_of_append _ _ (leBytes_length 4 x)
  have htl : ((wire_encode w).drop 64).take 4 = leBytes 4 w.ipc_bits := by
    rw [d64]
    have h4l : (leBytes 4 w.ipc_bits).length = 4 := leBytes_length 4 _
    rw [List.take_of_length_le (by omega)]
  rw [wire_decode, if_pos hb, ht, d8, d16, d24, d32, d40, d48, d56, d60,
    htake, htake, htake, htake, htake, htake, htake4, htake4, htl,
    fromLE_leBytes 8 _ (by rw [p64]; exact h1),
    fromLE_leBytes 8 _ (by rw [p64]; exact h2),
    fromLE_leBytes 8 _ (by rw [p64]; exact h3),
    fromLE_leBytes 8 _ (by rw [p64]; exact h4),
    fromLE_leBytes 8 _ (by rw [p64]; exact h5),
    fromLE_leBytes 8 _ (by rw [p64]; exact h6),
    fromLE_leBytes 8 _ (by rw [p64]; exact h7),
    fromLE_leBytes 4 _ (by rw [p32]; exact h8),
    fromLE_leBytes 4 _ (by rw [p32]; exact h9),
    fromLE_leBytes 4 _ (by rw [p32]; exact h10)]

/-- **C9.**  The wire record built for a mirrored sample is exactly 68
bytes, laid out little-endian in the fixed order timestamp_ns,
cache_references, cache_misses, branch_instructions, branch_misses,
cycles, instructions (8 bytes each) followed by the three 4-byte float
patterns; decoding the encoding recovers the record, and re-encoding the
decoded record is byte-identical. -/
theorem wire_format_spec (f32 : ℚ → ℕ) (hf : ∀ q : ℚ, f32 q < 2 ^ 32)
    (s : Sample) (hts : s.timestamp_ns < 2 ^ 64)
    (hcr : s.cache_references < 2 ^ 64) (hcm : s.cache_misses < 2 ^ 64)
    (hbi : s.branch_instructions < 2 ^ 64) (hbm : s.branch_misses < 2 ^ 64)
    (hcy : s.cycles < 2 ^ 64) (hins : s.instructions < 2 ^ 64) :
    ((wire_encode (sample_to_wire f32 s)).length = 68) ∧
    (wire_encode (sample_to_wire f32 s)
      = leBytes 8 s.timestamp_ns ++ leBytes 8 s.cache_references ++
        leBytes 8 s.cache_misses ++ leBytes 8 s.branch_instructions ++
        leBytes 8 s.branch_misses ++ leBytes 8 s.cycles ++
        leBytes 8 s.instructions ++ leBytes 4 (f32 s.cache_miss_rate) ++
        leBytes 4 (f32 s.branch_miss_rate) ++ leBytes 4 (f32 s.ipc)) ∧
    (wire_decode (wire_encode (sample_to_wire f32 s))
      = some (sample_to_wire f32 s)) ∧
    (∀ w' : WireSample,
      wire_decode (wire_encode (sample_to_wire f32 s)) = some w' →
        wire_encode w' = wire_encode (sample_to_wire f32 s)) := by
  have hrange : wireInRange (sample_to_wire f32 s) :=
    ⟨hts, hcr, hcm, hbi, hbm, hcy, hins, hf _, hf _, hf _⟩
  have hdec := wire_decode_encode (sample_to_wire f32 s) hrange
  refine ⟨wire_encode_length _, rfl, hdec, fun w' h => ?_⟩
  rw [hdec] at h
  injection h with h
  rw [h]

/-- Witness for C9 at a concrete sample (all counters zero, zero float
encoder). -/
theorem wire_format_spec_witness :
    ((∀ q : ℚ, (fun _ : ℚ => 0) q < 2 ^ 32) ∧
      zeroSample.timestamp_ns < 2 ^ 64) ∧
    ((wire_encode (sample_to_wire (fun _ : ℚ => 0) zeroSample)).length = 68 ∧
     (wire_decode (wire_encode (sample_to_wire (fun _ : ℚ => 0) zeroSample))
        = some (sample_to_wire (fun _ : ℚ => 0) zeroSample))) :=
  ⟨⟨fun _ => by norm_num, by norm_num [zeroSample]⟩,
    (wire_format_spec (fun _ : ℚ => 0) (fun _ => by norm_num) zeroSample
      (by norm_num [zeroSample]) (by norm_num [zeroSample])
      (by norm_num [zeroSample]) (by norm_num [zeroSample])
      (by norm_num [zeroSample]) (by norm_num [zeroSample])
      (by norm_num [zeroSample])).1,
    ((wire_format_spec (fun _ : ℚ => 0) (fun _ => by norm_num) zeroSample
      (by norm_num [zeroSample]) (by norm_num [zeroSample])
      (by norm_num [zeroSample]) (by norm_num [zeroSample])
      (by norm_num [zeroSample]) (by norm_num [zeroSample])
      (by norm_num [zeroSample])).2).2.1⟩

/-! ## C4: burst tracking -/

theorem detect_ready_unfold (e : AnomalyEngine) (s : Sample)
    (h : e.baseline.ready = true) :
    anomaly_detect e s =
      ({ e with
          recent_cmr := recentAfter e s
          recent_idx := idxAfter e
          consecutive_anomalies := consecAfter e s },
       { z_cache_miss := z_cmr_of e s
         z_branch_miss := z_bmr_of e s
         z_ipc := z_ipc_of e s
         composite_score := compositeOf e s
         anomaly_flags := flagsOf e s
         sustained_count := consecAfter e s }) := by
  unfold anomaly_detect
  rw [if_pos h]

theorem lor_flag_bits (p1 p2 p3 p4 p5 : Prop) [Decidable p1] [Decidable p2]
    [Decidable p3] [Decidable p4] [Decidable p5] :
    ((((if p1 then 1 else 0) ||| (if p2 then 2 else 0) ||| (if p3 then 4 else 0) |||
        (if p4 then 8 else 0) ||| (if p5 then 16 else 0) : ℕ) &&& 7 ≠ 0)
      ↔ (p1 ∨ p2 ∨ p3)) ∧
    ((((if p1 then 1 else 0) ||| (if p2 then 2 else 0) ||| (if p3 then 4 else 0) |||
        (if p4 then 8 else 0) ||| (if p5 then 16 else 0) : ℕ) &&& 8 ≠ 0) ↔ p4) ∧
    ((((if p1 then 1 else 0) ||| (if p2 then 2 else 0) ||| (if p3 then 4 else 0) |||
        (if p4 then 8 else 0) ||| (if p5 then 16 else 0) : ℕ) &&& 16 ≠ 0) ↔ p5) := by
  split_ifs with h1 h2 h3 h4 h5 <;> refine ⟨?_, ?_, ?_⟩ <;>
    simp_all <;> decide

theorem flagsOf_and7 (e : AnomalyEngine) (s : Sample) :
    (flagsOf e s &&& 7 ≠ 0) ↔ isAnomalous e s :=
  (lor_flag_bits (z_cmr_of e s > e.z_threshold) (z_bmr_of e s > e.z_threshold)
    (z_ipc_of e s < -e.z_threshold)
    (isAnomalous e s ∧ e.burst_window ≤ consecAfter e s)
    (detect_oscillation (recentAfter e s) e.recent_cap (idxAfter e) = true)).1

theorem flagsOf_and8 (e : AnomalyEngine) (s : Sample) :
    (flagsOf e s &&& 8 ≠ 0) ↔
      (isAnomalous e s ∧ e.burst_window ≤ consecAfter e s) :=
  (lor_flag_bits (z_cmr_of e s > e.z_threshold) (z_bmr_of e s > e.z_threshold)
    (z_ipc_of e s < -e.z_threshold)
    (isAnomalous e s ∧ e.burst_window ≤ consecAfter e s)
    (detect_oscillation (recentAfter e s) e.recent_cap (idxAfter e) = true)).2.1

theorem flagsOf_and16 (e : AnomalyEngine) (s : Sample) :
    (flagsOf e s &&& 16 ≠ 0) ↔
      detect_oscillation (recentAfter e s) e.recent_cap (idxAfter e) = true :=
  (lor_flag_bits (z_cmr_of e s > e.z_threshold) (z_bmr_of e s > e.z_threshold)
    (z_ipc_of e s < -e.z_threshold)
    (isAnomalous e s ∧ e.burst_window ≤ consecAfter e s)
    (detect_oscillation (recentAfter e s) e.recent_cap (idxAfter e) = true)).2.2

/-- **C4.**  On a ready baseline (and a positive burst window, the only
configuration in which the window update is well defined): if any primary
flag fired the consecutive-anomaly counter increments, otherwise it resets
to zero; BURST_PATTERN is set exactly when the updated counter has reached
`burst_window`; and the reported `sustained_count` equals the updated
counter. -/
theorem burst_tracking_spec (e : AnomalyEngine) (s : Sample)
    (hr : e.baseline.ready = true) (hbw : 1 ≤ e.burst_window) :
    (((anomaly_detect e s).2.anomaly_flags &&& 7 ≠ 0) →
      (anomaly_detect e s).1.consecutive_anomalies
        = e.consecutive_anomalies + 1) ∧
    (((anomaly_detect e s).2.anomaly_flags &&& 7 = 0) →
      (anomaly_detect e s).1.consecutive_anomalies = 0) ∧
    (((anomaly_detect e s).2.anomaly_flags &&& 8 ≠ 0) ↔
      e.burst_window ≤ (anomaly_detect e s).1.consecutive_anomalies) ∧
    ((anomaly_detect e s).2.sustained_count
      = (anomaly_detect e s).1.consecutive_anomalies) := by
  rw [detect_ready_unfold e s hr]
  refine ⟨?_, ?_, ?_, rfl⟩
  · intro hf
    have hA := (flagsOf_and7 e s).mp hf
    simp only [consecAfter, if_pos hA]
  · intro hf
    by_cases hA : isAnomalous e s
    · exact absurd ((flagsOf_and7 e s).mpr hA) (by simp [hf])
    · simp only [consecAfter, if_neg hA]
  · rw [flagsOf_and8]
    constructor
    · rintro ⟨hA, hle⟩
      exact hle
    · intro hle
      by_cases hA : isAnomalous e s
      · exact ⟨hA, hle⟩
      · exfalso
        simp only [consecAfter, if_neg hA] at hle
        omega

/-- Witness for C4: a ready flat baseline with threshold 4 and burst
window 10, applied to the all-zero sample. -/
theorem burst_tracking_spec_witness :
    ((anomaly_finalize_baseline (fun y : ℚ => y)
        (anomaly_learn (anomaly_init 4 10) zeroSample)).baseline.ready = true ∧
      1 ≤ (anomaly_finalize_baseline (fun y : ℚ => y)
        (anomaly_learn (anomaly_init 4 10) zeroSample)).burst_window) ∧
    (((anomaly_detect (anomaly_finalize_baseline (fun y : ℚ => y)
        (anomaly_learn (anomaly_init 4 10) zeroSample)) zeroSample).2.anomaly_flags &&& 8 ≠ 0) ↔
      (anomaly_finalize_baseline (fun y : ℚ => y)
        (anomaly_learn (anomaly_init 4 10) zeroSample)).burst_window ≤
        (anomaly_detect (anomaly_finalize_baseline (fun y : ℚ => y)
          (anomaly_learn (anomaly_init 4 10) zeroSample)) zeroSample).1.consecutive_anomalies) := by
  have hr : (anomaly_finalize_baseline (fun y : ℚ => y)
      (anomaly_learn (anomaly_init 4 10) zeroSample)).baseline.ready = true := by
    rw [anomaly_finalize_baseline, if_neg (by decide)]
  have hbw : 1 ≤ (anomaly_finalize_baseline (fun y : ℚ => y)
      (anomaly_learn (anomaly_init 4 10) zeroSample)).burst_window := by
    rw [finalize_bw]
    decide
  exact ⟨⟨hr, hbw⟩,
    (burst_tracking_spec (anomaly_finalize_baseline (fun y : ℚ => y)
      (anomaly_learn (anomaly_init 4 10) zeroSample)) zeroSample hr hbw).2.2.1⟩

/-! ## C3: composite score -/

theorem maxAbsZ_eq (e : AnomalyEngine) (s : Sample) :
    maxAbsZ e s
      = max |z_cmr_of e s| (max |z_bmr_of e s| |z_ipc_of e s|) := by
  simp only [maxAbsZ]
  split_ifs with h1 h2 h3
  · rw [max_eq_right h2.le, max_eq_right (h1.trans h2).le]
  · rw [max_eq_left (not_lt.mp h2), max_eq_right h1.le]
  · rw [max_eq_right ((not_lt.mp h1).trans h3.le), max_eq_right h3.le]
  · rw [max_eq_left (max_le (not_lt.mp h1) (not_lt.mp h3))]

theorem maxAbsZ_nonneg (e : AnomalyEngine) (s : Sample) : 0 ≤ maxAbsZ e s := by
  rw [maxAbsZ_eq]
  exact le_trans (abs_nonneg _) (le_max_left _ _)

/-- For a positive threshold the raw composite lies in `[0, 1)`. -/
theorem composite_raw_bounds (e : AnomalyEngine) (s : Sample)
    (hz : 0 < e.z_threshold) :
    0 ≤ 1 - 1 / (1 + maxAbsZ e s / e.z_threshold) ∧
    1 - 1 / (1 + maxAbsZ e s / e.z_threshold) < 1 := by
  have hm := maxAbsZ_nonneg e s
  have hq : 0 ≤ maxAbsZ e s / e.z_threshold := div_nonneg hm hz.le
  have hd : (0 : ℚ) < 1 + maxAbsZ e s / e.z_threshold := by linarith
  have hinv : 0 < 1 / (1 + maxAbsZ e s / e.z_threshold) := by positivity
  have hle : 1 / (1 + maxAbsZ e s / e.z_threshold) ≤ 1 := by
    rw [div_le_one hd]; linarith
  constructor <;> linarith

theorem compositeOf_eq_raw (e : AnomalyEngine) (s : Sample)
    (hz : 0 < e.z_threshold) :
    compositeOf e s = 1 - 1 / (1 + maxAbsZ e s / e.z_threshold) := by
  obtain ⟨hlo, hhi⟩ := composite_raw_bounds e s hz
  simp only [compositeOf]
  rw [if_neg (by linarith), if_neg (by linarith)]

/-- **C3** (amended with a positive configured threshold).  The composite
score is the clamp to `[0,1]` of `1 - 1/(1 + m/Z)` with
`m = max(|z_cmr|, |z_bmr|, |z_ipc|)`; it always lies in `[0,1]`; and it is
positive exactly when at least one z-score is nonzero. -/
theorem composite_spec (e : AnomalyEngine) (s : Sample)
    (hr : e.baseline.ready = true) (hz : 0 < e.z_threshold) :
    ((anomaly_detect e s).2.composite_score
      = max 0 (min 1 (1 - 1 / (1 +
          max |(anomaly_detect e s).2.z_cache_miss|
            (max |(anomaly_detect e s).2.z_branch_miss|
              |(anomaly_detect e s).2.z_ipc|) / e.z_threshold)))) ∧
    (0 ≤ (anomaly_detect e s).2.composite_score) ∧
    ((anomaly_detect e s).2.composite_score ≤ 1) ∧
    (0 < (anomaly_detect e s).2.composite_score ↔
      ((anomaly_detect e s).2.z_cache_miss ≠ 0 ∨
       (anomaly_detect e s).2.z_branch_miss ≠ 0 ∨
       (anomaly_detect e s).2.z_ipc ≠ 0)) := by
  obtain ⟨hlo, hhi⟩ := composite_raw_bounds e s hz
  have hm := maxAbsZ_nonneg e s
  have hraw := compositeOf_eq_raw e s hz
  rw [detect_ready_unfold e s hr]
  simp only
  rw [← maxAbsZ_eq]
  refine ⟨?_, ?_, ?_, ?_⟩
  · rw [hraw, min_eq_right (by linarith), max_eq_right (by linarith)]
  · rw [hraw]; exact hlo
  · rw [hraw]; linarith
  · rw [hraw]
    have hd : (0 : ℚ) < 1 + maxAbsZ e s / e.z_threshold := by
      have : 0 ≤ maxAbsZ e s / e.z_threshold := div_nonneg hm hz.le
      linarith
    have hiff : 0 < 1 - 1 / (1 + maxAbsZ e s / e.z_threshold) ↔ 0 < maxAbsZ e s := by
      rw [sub_pos, div_lt_one hd, lt_add_iff_pos_right, div_pos_iff]
      constructor
      · rintro (⟨h, _⟩ | ⟨_, h⟩)
        · exact h
        · exact absurd hz (by linarith)
      · intro h
        exact Or.inl ⟨h, hz⟩
    rw [hiff, maxAbsZ_eq]
    rw [lt_max_iff, lt_max_iff, abs_pos, abs_pos, abs_pos]

/-- Witness for C3: a ready flat baseline with the default-like threshold
4 > 0 evaluated at the all-zero sample. -/
theorem composite_spec_witness :
    ((anomaly_finalize_baseline (fun y : ℚ => y)
        (anomaly_learn (anomaly_init 4 10) zeroSample)).baseline.ready = true ∧
      0 < (anomaly_finalize_baseline (fun y : ℚ => y)
        (anomaly_learn (anomaly_init 4 10) zeroSample)).z_threshold) ∧
    (0 ≤ (anomaly_detect (anomaly_finalize_baseline (fun y : ℚ => y)
        (anomaly_learn (anomaly_init 4 10) zeroSample)) zeroSample).2.composite_score ∧
     (anomaly_detect (anomaly_finalize_baseline (fun y : ℚ => y)
        (anomaly_learn (anomaly_init 4 10) zeroSample)) zeroSample).2.composite_score ≤ 1) := by
  have hr : (anomaly_finalize_baseline (fun y : ℚ => y)
      (anomaly_learn (anomaly_init 4 10) zeroSample)).baseline.ready = true := by
    rw [anomaly_finalize_baseline, if_neg (by decide)]
  have hz : 0 < (anomaly_finalize_baseline (fun y : ℚ => y)
      (anomaly_learn (anomaly_init 4 10) zeroSample)).z_threshold := by
    rw [finalize_zt]
    norm_num [anomaly_learn, anomaly_init]
  have h := composite_spec (anomaly_finalize_baseline (fun y : ℚ => y)
    (anomaly_learn (anomaly_init 4 10) zeroSample)) zeroSample hr hz
  exact ⟨⟨hr, hz⟩, h.2.1, h.2.2.1⟩

/-- Counterexample to C3 as stated: with a configured threshold of `-1`
(the code nowhere requires the threshold to be positive) and a ready
baseline with unit standard deviations, a sample with z_cmr = 1/2 yields
composite = 0 — `1 - 1/(1 + (1/2)/(-1)) = -1` is clamped to 0 — although
one z-score is nonzero, refuting "composite > 0 iff some |z| > 0". -/
theorem composite_spec_counterexample :
    (anomaly_detect
        (AnomalyEngine.mk ⟨0, 1, 0, 1, 0, 1, 1, true⟩ (-1) 10 0 0 0 0 0 0 1 0
          (fun _ => 0) 0 10)
        (Sample.mk 0 0 0 0 0 0 0 (1/2) 0 0)).2.composite_score = 0 ∧
    (anomaly_detect
        (AnomalyEngine.mk ⟨0, 1, 0, 1, 0, 1, 1, true⟩ (-1) 10 0 0 0 0 0 0 1 0
          (fun _ => 0) 0 10)
        (Sample.mk 0 0 0 0 0 0 0 (1/2) 0 0)).2.z_cache_miss ≠ 0 := by
  rw [detect_ready_unfold _ _ rfl]
  constructor
  · have habs : |(1 : ℚ) / 2| = 1 / 2 := by
      rw [abs_of_pos]; norm_num
    norm_num [compositeOf, maxAbsZ, z_cmr_of, z_bmr_of, z_ipc_of, compute_z, habs]
  · norm_num [z_cmr_of, compute_z]

/-! ## C5: oscillation detection -/

theorem foldl_oscStep_eq (L : List ℚ) : ∀ (c : ℕ) (p : ℤ),
    (L.foldl oscStep (c, p)).1 = c + signChangesAux p L := by
  induction L with
  | nil => intro c p; simp [signChangesAux]
  | cons d rest ih =>
    intro c p
    rw [List.foldl_cons, signChangesAux]
    have hstep : oscStep (c, p) d
        = ((if diffSign d ≠ 0 ∧ diffSign d ≠ p ∧ p ≠ 0 then c + 1 else c),
           (if diffSign d ≠ 0 then diffSign d else p)) := rfl
    rw [hstep, ih]
    split_ifs <;> omega

theorem signChangesAux_eq_altCount (l : List ℚ) : ∀ p : ℤ,
    (p = 0 → signChangesAux p l = altCount (nonzeroSigns l)) ∧
    (p ≠ 0 → signChangesAux p l = altCount (p :: nonzeroSigns l)) := by
  induction l with
  | nil =>
    intro p
    constructor <;> intro hp <;> simp [signChangesAux, nonzeroSigns, altCount]
  | cons d rest ih =>
    intro p
    by_cases hdir : diffSign d = 0
    · have hnz : nonzeroSigns (d :: rest) = nonzeroSigns rest := by
        simp [nonzeroSigns, hdir]
      constructor <;> intro hp
      · rw [signChangesAux, hnz]
        simp only [hdir, hp]
        simpa using (ih 0).1 rfl
      · rw [signChangesAux, hnz]
        simp only [hdir]
        simpa [hp] using (ih p).2 hp
    · have hnz : nonzeroSigns (d :: rest) = diffSign d :: nonzeroSigns rest := by
        simp [nonzeroSigns, hdir]
      constructor <;> intro hp
      · subst hp
        rw [signChangesAux, hnz]
        rw [if_neg (by simp), if_pos hdir, (ih (diffSign d)).2 hdir, zero_add]
      · rw [signChangesAux, hnz, altCount]
        rw [if_pos hdir, (ih (diffSign d)).2 hdir]
        by_cases hdp : diffSign d = p
        · rw [if_neg (by simp [hdp]), if_neg (by simp [hdp])]
        · rw [if_pos ⟨hdir, hdp, hp⟩, if_pos (fun h => hdp h.symm)]

theorem altCount_concat (x : ℤ) : ∀ l : List ℤ,
    altCount (l ++ [x])
      = altCount l + (l.getLast?.elim 0 fun a => if a ≠ x then 1 else 0) := by
  intro l
  induction l with
  | nil => simp [altCount]
  | cons a t ih =>
    cases t with
    | nil => simp [altCount]
    | cons b t' =>
      have hcc : (a :: b :: t').getLast? = (b :: t').getLast? :=
        List.getLast?_cons_cons
      calc altCount ((a :: b :: t') ++ [x])
          = (if a ≠ b then 1 else 0) + altCount ((b :: t') ++ [x]) := rfl
        _ = (if a ≠ b then 1 else 0) + (altCount (b :: t')
              + ((b :: t').getLast?.elim 0 fun c => if c ≠ x then 1 else 0)) := by
            rw [ih]
        _ = altCount (a :: b :: t')
              + ((a :: b :: t').getLast?.elim 0 fun c => if c ≠ x then 1 else 0) := by
            rw [hcc, altCount]
            omega

theorem altCount_head (x : ℤ) (l : List ℤ) :
    altCount (x :: l)
      = (l.head?.elim 0 fun b => if x ≠ b then 1 else 0) + altCount l := by
  cases l with
  | nil => simp [altCount]
  | cons b t => simp [altCount]

theorem altCount_reverse : ∀ l : List ℤ, altCount l.reverse = altCount l := by
  intro l
  induction l with
  | nil => rfl
  | cons x t ih =>
    rw [List.reverse_cons, altCount_concat, ih, List.getLast?_reverse,
      altCount_head]
    have : ∀ (o : Option ℤ),
        (o.elim 0 fun a => if a ≠ x then 1 else 0)
          = (o.elim 0 fun b => if x ≠ b then 1 else 0) := by
      intro o
      cases o with
      | none => rfl
      | some a => simp [ne_comm]
    rw [this]
    omega

theorem nonzeroSigns_reverse (l : List ℚ) :
    nonzeroSigns l.reverse = (nonzeroSigns l).reverse := by
  unfold nonzeroSigns
  rw [List.map_reverse, List.filter_reverse]

theorem signChanges_reverse (l : List ℚ) :
    signChanges l.reverse = signChanges l := by
  rw [signChanges, signChanges,
    (signChangesAux_eq_altCount l.reverse 0).1 rfl,
    (signChangesAux_eq_altCount l 0).1 rfl,
    nonzeroSigns_reverse, altCount_reverse]

theorem firstDiffs_map_range' (g : ℕ → ℚ) : ∀ (n a : ℕ),
    firstDiffs ((List.range' a n).map g)
      = (List.range' a (n - 1)).map fun k => g (k + 1) - g k := by
  intro n
  induction n with
  | zero => intro a; simp [firstDiffs]
  | succ m ih =>
    intro a
    cases m with
    | zero => simp [firstDiffs, List.range']
    | succ m' =>
      have h1 : List.range' a (m' + 1 + 1) = a :: List.range' (a + 1) (m' + 1) := by
        rw [List.range'_succ]
      have h2 : List.range' (a + 1) (m' + 1)
          = (a + 1) :: List.range' (a + 1 + 1) m' := by
        rw [List.range'_succ]
      have hfd : ∀ (x y : ℚ) (rest : List ℚ),
          firstDiffs (x :: y :: rest) = (y - x) :: firstDiffs (y :: rest) :=
        fun x y rest => rfl
      rw [h1, List.map_cons, h2, List.map_cons, hfd,
        ← List.map_cons g (a + 1) (List.range' (a + 1 + 1) m'), ← h2, ih (a + 1)]
      rw [show m' + 1 + 1 - 1 = m' + 1 from rfl, show m' + 1 - 1 = m' from rfl]
      rw [show List.range' a (m' + 1) = a :: List.range' (a + 1) m' from by
        rw [List.range'_succ], List.map_cons]

theorem visited_eq_reverse_firstDiffs (buf : ℕ → ℚ) (cap idx : ℕ)
    (hcap : 1 ≤ cap) :
    (List.range' 1 (cap - 1)).map (fun i =>
        buf ((idx + cap - i) % cap) - buf ((idx + cap - i - 1) % cap))
      = (firstDiffs (windowSeq buf cap idx)).reverse := by
  rw [windowSeq, List.range_eq_range',
    firstDiffs_map_range' (fun j => buf ((idx + j) % cap)) cap 0]
  apply List.ext_getElem
  · simp
  · intro ℓ h1 h2
    simp only [List.getElem_map, List.getElem_range', List.getElem_reverse,
      List.length_map, List.length_range'] at h1 h2 ⊢
    have hl : ℓ < cap - 1 := by simpa using h1
    have e1 : idx + cap - (1 + 1 * ℓ)
        = idx + (0 + 1 * (cap - 1 - 1 - ℓ) + 1) := by omega
    rw [e1]
    have e2 : idx + (0 + 1 * (cap - 1 - 1 - ℓ) + 1) - 1
        = idx + (0 + 1 * (cap - 1 - 1 - ℓ)) := by omega
    rw [e2]

theorem detect_oscillation_iff (buf : ℕ → ℚ) (cap idx : ℕ) (hcap : 4 ≤ cap) :
    detect_oscillation buf cap idx = true ↔
      cap / 2 ≤ signChanges (firstDiffs (windowSeq buf cap idx)) := by
  simp only [detect_oscillation]
  rw [if_neg (by omega : ¬ cap < 4), decide_eq_true_iff, foldl_oscStep_eq,
    Nat.zero_add, visited_eq_reverse_firstDiffs buf cap idx (by omega)]
  have h : signChangesAux 0 ((firstDiffs (windowSeq buf cap idx)).reverse)
      = signChanges (firstDiffs (windowSeq buf cap idx)) :=
    signChanges_reverse _
  rw [h]

/-- **C5** (amended: the window must have size at least 4).  After the
current cache-miss rate is appended to the circular window, the
OSCILLATION flag is set exactly when the number of sign changes in the
first difference over the chronological window (zero differences neither
counting as a change nor resetting the previous direction) is at least
`window_size / 2`. -/
theorem oscillation_spec (e : AnomalyEngine) (s : Sample)
    (hr : e.baseline.ready = true) (hcap : 4 ≤ e.recent_cap)
    (hwin : e.recent_cap = e.burst_window) :
    ((anomaly_detect e s).2.anomaly_flags &&& 16 ≠ 0) ↔
      e.burst_window / 2 ≤ signChanges (firstDiffs
        (windowSeq ((anomaly_detect e s).1.recent_cmr) e.burst_window
          ((anomaly_detect e s).1.recent_idx))) := by
  rw [detect_ready_unfold e s hr]
  simp only
  rw [← hwin, flagsOf_and16]
  exact detect_oscillation_iff (recentAfter e s) e.recent_cap (idxAfter e) hcap

/-- Witness for C5: the ready flat baseline (window size 10 = burst
window) evaluated at the all-zero sample. -/
theorem oscillation_spec_witness :
    ((anomaly_finalize_baseline (fun y : ℚ => y)
        (anomaly_learn (anomaly_init 4 10) zeroSample)).baseline.ready = true ∧
      4 ≤ (anomaly_finalize_baseline (fun y : ℚ => y)
        (anomaly_learn (anomaly_init 4 10) zeroSample)).recent_cap ∧
      (anomaly_finalize_baseline (fun y : ℚ => y)
        (anomaly_learn (anomaly_init 4 10) zeroSample)).recent_cap
        = (anomaly_finalize_baseline (fun y : ℚ => y)
          (anomaly_learn (anomaly_init 4 10) zeroSample)).burst_window) ∧
    (((anomaly_detect (anomaly_finalize_baseline (fun y : ℚ => y)
        (anomaly_learn (anomaly_init 4 10) zeroSample)) zeroSample).2.anomaly_flags
          &&& 16 ≠ 0) ↔
      (anomaly_finalize_baseline (fun y : ℚ => y)
        (anomaly_learn (anomaly_init 4 10) zeroSample)).burst_window / 2 ≤
        signChanges (firstDiffs (windowSeq
          ((anomaly_detect (anomaly_finalize_baseline (fun y : ℚ => y)
            (anomaly_learn (anomaly_init 4 10) zeroSample)) zeroSample).1.recent_cmr)
          (anomaly_finalize_baseline (fun y : ℚ => y)
            (anomaly_learn (anomaly_init 4 10) zeroSample)).burst_window
          ((anomaly_detect (anomaly_finalize_baseline (fun y : ℚ => y)
            (anomaly_learn (anomaly_init 4 10) zeroSample)) zeroSample).1.recent_idx)))) := by
  have hr : (anomaly_finalize_baseline (fun y : ℚ => y)
      (anomaly_learn (anomaly_init 4 10) zeroSample)).baseline.ready = true := by
    rw [anomaly_finalize_baseline, if_neg (by decide)]
  have hcap : 4 ≤ (anomaly_finalize_baseline (fun y : ℚ => y)
      (anomaly_learn (anomaly_init 4 10) zeroSample)).recent_cap := by
    rw [finalize_recent_cap]; decide
  have hwin : (anomaly_finalize_baseline (fun y : ℚ => y)
      (anomaly_learn (anomaly_init 4 10) zeroSample)).recent_cap
      = (anomaly_finalize_baseline (fun y : ℚ => y)
        (anomaly_learn (anomaly_init 4 10) zeroSample)).burst_window := by
    rw [finalize_recent_cap, finalize_bw]
    decide
  exact ⟨⟨hr, hcap, hwin⟩,
    oscillation_spec (anomaly_finalize_baseline (fun y : ℚ => y)
      (anomaly_learn (anomaly_init 4 10) zeroSample)) zeroSample hr hcap hwin⟩

/-- Counterexample to C5 as stated: with a window of size 3 (= burst
window), window contents [2, 0, 3] in chronological order after the
append, the first differences are [-2, +3] with one sign change, and
1 ≥ window_size / 2 = 1, yet the code never sets OSCILLATION because
`detect_oscillation` returns false outright for any window smaller
than 4. -/
theorem oscillation_spec_counterexample :
    ((AnomalyEngine.mk ⟨0, 0, 0, 0, 0, 0, 1, true⟩ (7/2) 3 0 0 0 0 0 0 1 0
        (fun i => if i = 2 then 2 else 0) 1 3).burst_window / 2
      ≤ signChanges (firstDiffs (windowSeq
        ((anomaly_detect
          (AnomalyEngine.mk ⟨0, 0, 0, 0, 0, 0, 1, true⟩ (7/2) 3 0 0 0 0 0 0 1 0
            (fun i => if i = 2 then 2 else 0) 1 3)
          (Sample.mk 0 0 0 0 0 0 0 3 0 0)).1.recent_cmr)
        (AnomalyEngine.mk ⟨0, 0, 0, 0, 0, 0, 1, true⟩ (7/2) 3 0 0 0 0 0 0 1 0
          (fun i => if i = 2 then 2 else 0) 1 3).burst_window
        ((anomaly_detect
          (AnomalyEngine.mk ⟨0, 0, 0, 0, 0, 0, 1, true⟩ (7/2) 3 0 0 0 0 0 0 1 0
            (fun i => if i = 2 then 2 else 0) 1 3)
          (Sample.mk 0 0 0 0 0 0 0 3 0 0)).1.recent_idx)))) ∧
    ((anomaly_detect
        (AnomalyEngine.mk ⟨0, 0, 0, 0, 0, 0, 1, true⟩ (7/2) 3 0 0 0 0 0 0 1 0
          (fun i => if i = 2 then 2 else 0) 1 3)
        (Sample.mk 0 0 0 0 0 0 0 3 0 0)).2.anomaly_flags &&& 16 = 0) := by
  rw [detect_ready_unfold _ _ rfl]
  constructor
  · simp only
    norm_num [windowSeq, recentAfter, idxAfter, List.range, firstDiffs,
      signChanges, signChangesAux, diffSign]
  · simp only
    have hosc : detect_oscillation
        (recentAfter
          (AnomalyEngine.mk ⟨0, 0, 0, 0, 0, 0, 1, true⟩ (7/2) 3 0 0 0 0 0 0 1 0
            (fun i => if i = 2 then 2 else 0) 1 3)
          (Sample.mk 0 0 0 0 0 0 0 3 0 0)) 3
        (idxAfter
          (AnomalyEngine.mk ⟨0, 0, 0, 0, 0, 0, 1, true⟩ (7/2) 3 0 0 0 0 0 0 1 0
            (fun i => if i = 2 then 2 else 0) 1 3)) = false := rfl
    have h16 := flagsOf_and16
      (AnomalyEngine.mk ⟨0, 0, 0, 0, 0, 0, 1, true⟩ (7/2) 3 0 0 0 0 0 0 1 0
        (fun i => if i = 2 then 2 else 0) 1 3)
      (Sample.mk 0 0 0 0 0 0 0 3 0 0)
    rw [hosc] at h16
    simp only [Bool.false_eq_true, iff_false, not_not] at h16
    exact h16

/-! ## C1: ring buffer -/

theorem smear_step (x y k m : ℕ) (hm : m = 2 * k)
    (hy : ∀ i, y.testBit i = true ↔ ∃ d, d < k ∧ x.testBit (i + d) = true) :
    ∀ i, (y ||| y >>> k).testBit i = true ↔
      ∃ d, d < m ∧ x.testBit (i + d) = true := by
  subst hm
  intro i
  rw [Nat.testBit_or, Nat.testBit_shiftRight, Bool.or_eq_true, hy i, hy (k + i)]
  constructor
  · rintro (⟨d, hd, hb⟩ | ⟨d, hd, hb⟩)
    · exact ⟨d, by omega, hb⟩
    · exact ⟨k + d, by omega, by rwa [show i + (k + d) = k + i + d by omega]⟩
  · rintro ⟨d, hd, hb⟩
    by_cases hdk : d < k
    · exact Or.inl ⟨d, hdk, hb⟩
    · exact Or.inr ⟨d - k, by omega, by rwa [show k + i + (d - k) = i + d by omega]⟩

theorem testBit_lt_size (x j : ℕ) (h : x.testBit j = true) : j < Nat.size x := by
  by_contra hc
  push_neg at hc
  have hlt : x < 2 ^ j :=
    lt_of_lt_of_le (Nat.lt_size_self x) (Nat.pow_le_pow_right (by norm_num) hc)
  rw [Nat.testBit_lt_two_pow hlt] at h
  exact absurd h (by simp)

theorem testBit_msb (x : ℕ) (hx : x ≠ 0) : x.testBit (Nat.size x - 1) = true := by
  have hpos : 0 < Nat.size x := Nat.size_pos.mpr (Nat.pos_of_ne_zero hx)
  have hle : 2 ^ (Nat.size x - 1) ≤ x :=
    Nat.lt_size.mp (by omega : Nat.size x - 1 < Nat.size x)
  have hlt : x < 2 ^ Nat.size x := Nat.lt_size_self x
  have hdiv : x / 2 ^ (Nat.size x - 1) = 1 := by
    have hub : x / 2 ^ (Nat.size x - 1) < 2 := by
      apply Nat.div_lt_of_lt_mul
      calc x < 2 ^ Nat.size x := hlt
        _ = 2 ^ (Nat.size x - 1) * 2 := by
          rw [← pow_succ]
          congr 1
          omega
    have hlb : 1 ≤ x / 2 ^ (Nat.size x - 1) :=
      (Nat.one_le_div_iff (Nat.pos_pow_of_pos _ (by norm_num))).mpr hle
    omega
  rw [Nat.testBit_to_div_mod, hdiv]
  simp

theorem next_power_of_two_eq (c : ℕ) (hc1 : 1 ≤ c) (hc2 : c ≤ 2 ^ 63) :
    next_power_of_two c = 2 ^ Nat.size (c - 1) := by
  have hp63 : (2 : ℕ) ^ 63 = 9223372036854775808 := by norm_num
  have hp64 : (2 : ℕ) ^ 64 = 18446744073709551616 := by norm_num
  have hv1 : (c + (w64 - 1)) % w64 = c - 1 := by
    have he : c + (w64 - 1) = (c - 1) + w64 := by
      have h1 : (1 : ℕ) ≤ w64 := by norm_num [w64]
      omega
    rw [he, Nat.add_mod_right, Nat.mod_eq_of_lt]
    simp only [w64]
    omega
  have hxlt : c - 1 < 2 ^ 63 := by omega
  have hsize : Nat.size (c - 1) ≤ 63 := Nat.size_le.mpr hxlt
  have h0 : ∀ i, (c - 1).testBit i = true ↔
      ∃ d, d < 1 ∧ (c - 1).testBit (i + d) = true := by
    intro i
    constructor
    · intro h
      exact ⟨0, Nat.zero_lt_one, by simpa using h⟩
    · rintro ⟨d, hd, hb⟩
      have : d = 0 := by omega
      subst this
      simpa using hb
  simp only [next_power_of_two]
  rw [hv1]
  set x := c - 1 with hxdef
  set a := x ||| x >>> 1 with hadef
  set b := a ||| a >>> 2 with hbdef
  set cc := b ||| b >>> 4 with hccdef
  set dd := cc ||| cc >>> 8 with hdddef
  set ee := dd ||| dd >>> 16 with heedef
  set ff := ee ||| ee >>> 32 with hffdef
  have h1 : ∀ i, a.testBit i = true ↔
      ∃ d, d < 2 ∧ x.testBit (i + d) = true := by
    rw [hadef]; exact smear_step x x 1 2 rfl h0
  have h2 : ∀ i, b.testBit i = true ↔
      ∃ d, d < 4 ∧ x.testBit (i + d) = true := by
    rw [hbdef]; exact smear_step x a 2 4 rfl h1
  have h3 : ∀ i, cc.testBit i = true ↔
      ∃ d, d < 8 ∧ x.testBit (i + d) = true := by
    rw [hccdef]; exact smear_step x b 4 8 rfl h2
  have h4 : ∀ i, dd.testBit i = true ↔
      ∃ d, d < 16 ∧ x.testBit (i + d) = true := by
    rw [hdddef]; exact smear_step x cc 8 16 rfl h3
  have h5 : ∀ i, ee.testBit i = true ↔
      ∃ d, d < 32 ∧ x.testBit (i + d) = true := by
    rw [heedef]; exact smear_step x dd 16 32 rfl h4
  have h6 : ∀ i, ff.testBit i = true ↔
      ∃ d, d < 64 ∧ x.testBit (i + d) = true := by
    rw [hffdef]; exact smear_step x ee 32 64 rfl h5
  have hS : ff = 2 ^ Nat.size x - 1 := by
    apply Nat.eq_of_testBit_eq
    intro i
    rw [Nat.testBit_two_pow_sub_one]
    by_cases hi : i < Nat.size x
    · have hxne : x ≠ 0 := by
        intro hz
        rw [hz] at hi
        simp [Nat.size_zero] at hi
      have hmsb := testBit_msb x hxne
      have hbit : ff.testBit i = true := by
        refine (h6 i).mpr ⟨Nat.size x - 1 - i, by omega, ?_⟩
        rw [show i + (Nat.size x - 1 - i) = Nat.size x - 1 by omega]
        exact hmsb
      rw [hbit]
      simp [hi]
    · have hf : ff.testBit i = false := by
        rw [← Bool.not_eq_true]
        intro ht
        obtain ⟨d, hd, hb⟩ := (h6 i).mp ht
        have := testBit_lt_size x (i + d) hb
        omega
      rw [hf]
      simp [hi]
  rw [hS]
  have hone : 1 ≤ 2 ^ Nat.size x := Nat.one_le_two_pow
  rw [Nat.sub_add_cancel hone, Nat.mod_eq_of_lt]
  calc 2 ^ Nat.size x ≤ 2 ^ 63 := Nat.pow_le_pow_right (by norm_num) hsize
    _ < w64 := by simp only [w64]; omega

/-- The rounded capacity is the least power of two at or above the request
(for requests in `[1, 2^63]`, the range in which the 64-bit round-up does
not overflow). -/
theorem next_power_of_two_spec (c : ℕ) (hc1 : 1 ≤ c) (hc2 : c ≤ 2 ^ 63) :
    (∃ k, next_power_of_two c = 2 ^ k) ∧
    c ≤ next_power_of_two c ∧
    (∀ j, c ≤ 2 ^ j → next_power_of_two c ≤ 2 ^ j) := by
  rw [next_power_of_two_eq c hc1 hc2]
  refine ⟨⟨Nat.size (c - 1), rfl⟩, ?_, ?_⟩
  · have := Nat.lt_size_self (c - 1)
    omega
  · intro j hj
    apply Nat.pow_le_pow_right (by norm_num)
    apply Nat.size_le.mpr
    omega

theorem capacity_mask (cap k : ℕ) (hk : cap = 2 ^ k) (hk63 : k ≤ 63) :
    sub64 cap 1 = cap - 1 := by
  apply sub64_one
  · rw [hk]; exact Nat.one_le_two_pow
  · rw [hk, w64_eq]
    exact Nat.pow_le_pow_right (by norm_num) (by omega)

theorem push_fresh_step (rb : Ringbuffer) (s : Sample) (k : ℕ)
    (hcap : rb.capacity = 2 ^ k) (hk : k ≤ 63) (ht : rb.tail = 0)
    (hh : rb.head + 1 < rb.capacity) :
    ringbuffer_push rb s =
      ({ rb with
          buffer := fun i => if i = rb.head then s else rb.buffer i
          head := rb.head + 1 },
       true) := by
  have hmask := capacity_mask rb.capacity k hcap hk
  have hnext : (rb.head + 1) &&& sub64 rb.capacity 1 = rb.head + 1 := by
    rw [hmask, hcap, land_two_pow_sub_one, Nat.mod_eq_of_lt (by rw [← hcap]; omega)]
  have hred : ringbuffer_push rb s
      = if (rb.head + 1) &&& sub64 rb.capacity 1 = rb.tail then (rb, false)
        else ({ rb with
            buffer := fun i => if i = rb.head then s else rb.buffer i
            head := (rb.head + 1) &&& sub64 rb.capacity 1 }, true) := rfl
  rw [hred, hnext, if_neg (by omega)]

theorem pushList_fresh (l : List Sample) : ∀ (rb : Ringbuffer) (k : ℕ),
    rb.capacity = 2 ^ k → k ≤ 63 → rb.tail = 0 →
    rb.head + l.length < rb.capacity →
    (pushList rb l).2 = List.replicate l.length true ∧
    (pushList rb l).1.capacity = rb.capacity ∧
    (pushList rb l).1.tail = 0 ∧
    (pushList rb l).1.head = rb.head + l.length ∧
    (∀ j, j < rb.head → (pushList rb l).1.buffer j = rb.buffer j) ∧
    (∀ (i : ℕ) (h : i < l.length),
      (pushList rb l).1.buffer (rb.head + i) = l.get ⟨i, h⟩) := by
  induction l with
  | nil =>
    intro rb k hcap hk ht hh
    refine ⟨rfl, rfl, ht, by simp [pushList], fun j hj => rfl, fun i h => absurd h (by simp)⟩
  | cons s rest ih =>
    intro rb k hcap hk ht hh
    have hh1 : rb.head + 1 < rb.capacity := by
      have := List.length_cons s rest
      omega
    have hstep := push_fresh_step rb s k hcap hk ht hh1
    have hpl : pushList rb (s :: rest)
        = ((pushList (ringbuffer_push rb s).1 rest).1,
           (ringbuffer_push rb s).2 :: (pushList (ringbuffer_push rb s).1 rest).2) := rfl
    set rb' : Ringbuffer :=
      { rb with
        buffer := fun i => if i = rb.head then s else rb.buffer i
        head := rb.head + 1 } with hrb'
    have hfst : (ringbuffer_push rb s).1 = rb' := by rw [hstep]
    have hsnd : (ringbuffer_push rb s).2 = true := by rw [hstep]
    obtain ⟨ih1, ih2, ih3, ih4, ih5, ih6⟩ := ih rb' k hcap hk (by rw [hrb']; exact ht)
      (by
        have hlen : (s :: rest).length = rest.length + 1 := rfl
        have : rb'.head = rb.head + 1 := rfl
        have : rb'.capacity = rb.capacity := rfl
        simp only [hrb']
        omega)
    rw [hpl, hfst, hsnd]
    refine ⟨?_, ih2, ih3, ?_, ?_, ?_⟩
    · rw [ih1]
      rfl
    · rw [ih4]
      have : rb'.head = rb.head + 1 := rfl
      rw [this]
      have : (s :: rest).length = rest.length + 1 := rfl
      omega
    · intro j hj
      rw [ih5 j (by
        have : rb'.head = rb.head + 1 := rfl
        omega)]
      have hne : j ≠ rb.head := by omega
      simp only [hrb', hne, if_false]
    · intro i h
      cases i with
      | zero =>
        rw [Nat.add_zero]
        rw [ih5 rb.head (by
          have : rb'.head = rb.head + 1 := rfl
          omega)]
        simp only [hrb', if_pos rfl]
        rfl
      | succ i' =>
        have hh' : rb'.head = rb.head + 1 := rfl
        have harith : rb.head + (i' + 1) = rb'.head + i' := by rw [hh']; omega
        rw [harith, ih6 i' (by
          have : (s :: rest).length = rest.length + 1 := rfl
          omega)]
        rfl

theorem popN_drain (n : ℕ) : ∀ (rb : Ringbuffer) (k : ℕ),
    rb.capacity = 2 ^ k → k ≤ 63 →
    rb.tail + n ≤ rb.head → rb.head < rb.capacity →
    (popN rb n).2 = (List.range n).map (fun i => some (rb.buffer (rb.tail + i))) ∧
    (popN rb n).1.tail = rb.tail + n := by
  induction n with
  | zero =>
    intro rb k hcap hk hle hh
    exact ⟨by simp [popN], by simp [popN]⟩
  | succ m ih =>
    intro rb k hcap hk hle hh
    have hne : rb.tail ≠ rb.head := by omega
    have hmask := capacity_mask rb.capacity k hcap hk
    have hnext : (rb.tail + 1) &&& sub64 rb.capacity 1 = rb.tail + 1 := by
      rw [hmask, hcap, land_two_pow_sub_one, Nat.mod_eq_of_lt (by rw [← hcap]; omega)]
    have hstep : ringbuffer_pop rb
        = ({ rb with tail := rb.tail + 1 }, some (rb.buffer rb.tail)) := by
      have hred : ringbuffer_pop rb
          = if rb.tail = rb.head then (rb, none)
            else ({ rb with tail := (rb.tail + 1) &&& sub64 rb.capacity 1 },
              some (rb.buffer rb.tail)) := rfl
      rw [hred, if_neg hne, hnext]
    have hppl : popN rb (m + 1)
        = ((popN (ringbuffer_pop rb).1 m).1,
           (ringbuffer_pop rb).2 :: (popN (ringbuffer_pop rb).1 m).2) := rfl
    set rb' : Ringbuffer := { rb with tail := rb.tail + 1 } with hrb'
    have hfst : (ringbuffer_pop rb).1 = rb' := by rw [hstep]
    have hsnd : (ringbuffer_pop rb).2 = some (rb.buffer rb.tail) := by rw [hstep]
    obtain ⟨ih1, ih2⟩ := ih rb' k hcap hk (by simp only [hrb']; omega) hh
    rw [hppl, hfst, hsnd, ih1]
    have hbuf : rb'.buffer = rb.buffer := rfl
    have htl : rb'.tail = rb.tail + 1 := rfl
    constructor
    · have hmap : ∀ g : ℕ → Option Sample,
          (List.range (m + 1)).map g
            = g 0 :: (List.range m).map (fun i => g (i + 1)) := by
        intro g
        rw [List.range_succ_eq_map, List.map_cons, List.map_map]
        rfl
      have htail : (List.range m).map (fun i => some (rb'.buffer (rb'.tail + i)))
          = (List.range m).map (fun i => some (rb.buffer (rb.tail + (i + 1)))) := by
        apply List.map_congr_left
        intro i hi
        rw [hbuf, htl, show rb.tail + 1 + i = rb.tail + (i + 1) by omega]
      rw [htail, hmap (fun i => some (rb.buffer (rb.tail + i)))]
      rfl
    · rw [ih2, htl]
      omega

/-- **C1** (amended).  For requested capacities in `[1, 2^63]`,
`ringbuffer_init` rounds the capacity up to the least power of two at or
above it; push returns `full` and pop returns `empty` without modifying
the buffer (never blocking); the element count never exceeds `C - 1`; and
pushing `C - 1` samples into a fresh buffer of capacity `C` and then
popping `C - 1` yields exactly the original sequence in FIFO order. -/
theorem ringbuffer_spec (c : ℕ) (hc1 : 1 ≤ c) (hc2 : c ≤ 2 ^ 63)
    (rb0 : Ringbuffer) (hinit : ringbuffer_init c = some rb0)
    (l : List Sample) (hlen : l.length = rb0.capacity - 1) :
    (rb0.capacity = next_power_of_two c ∧ (∃ k, rb0.capacity = 2 ^ k) ∧
      c ≤ rb0.capacity ∧ (∀ j, c ≤ 2 ^ j → rb0.capacity ≤ 2 ^ j)) ∧
    (∀ (rb : Ringbuffer) (s : Sample),
      (rb.head + 1) &&& sub64 rb.capacity 1 = rb.tail →
        ringbuffer_push rb s = (rb, false)) ∧
    (∀ rb : Ringbuffer, rb.tail = rb.head → ringbuffer_pop rb = (rb, none)) ∧
    (∀ (rb : Ringbuffer) (k : ℕ), rb.capacity = 2 ^ k → k ≤ 63 →
      ringbuffer_count rb ≤ rb.capacity - 1) ∧
    ((pushList rb0 l).2 = List.replicate l.length true ∧
      (popN (pushList rb0 l).1 l.length).2 = l.map some) := by
  have hp63 : (2 : ℕ) ^ 63 = 9223372036854775808 := by norm_num
  have hc0 : c ≠ 0 := by omega
  rw [ringbuffer_init, if_neg hc0] at hinit
  injection hinit with hinit
  have hcap : rb0.capacity = next_power_of_two c := by rw [← hinit]
  have hhead : rb0.head = 0 := by rw [← hinit]
  have htail : rb0.tail = 0 := by rw [← hinit]
  have hnpot := next_power_of_two_spec c hc1 hc2
  have hk63 : Nat.size (c - 1) ≤ 63 := Nat.size_le.mpr (by omega)
  have hcap2 : rb0.capacity = 2 ^ Nat.size (c - 1) := by
    rw [hcap, next_power_of_two_eq c hc1 hc2]
  have hcappos : 1 ≤ rb0.capacity := by
    rw [hcap2]; exact Nat.one_le_two_pow
  refine ⟨⟨hcap, ⟨Nat.size (c - 1), hcap2⟩, by rw [hcap]; exact hnpot.2.1,
      fun j hj => by rw [hcap]; exact hnpot.2.2 j hj⟩, ?_, ?_, ?_, ?_⟩
  · intro rb s hfull
    have hred : ringbuffer_push rb s
        = if (rb.head + 1) &&& sub64 rb.capacity 1 = rb.tail then (rb, false)
          else ({ rb with
              buffer := fun i => if i = rb.head then s else rb.buffer i
              head := (rb.head + 1) &&& sub64 rb.capacity 1 }, true) := rfl
    rw [hred, if_pos hfull]
  · intro rb hempty
    have hred : ringbuffer_pop rb
        = if rb.tail = rb.head then (rb, none)
          else ({ rb with tail := (rb.tail + 1) &&& sub64 rb.capacity 1 },
            some (rb.buffer rb.tail)) := rfl
    rw [hred, if_pos hempty]
  · intro rb k hcapk hk
    unfold ringbuffer_count
    rw [capacity_mask rb.capacity k hcapk hk, hcapk, land_two_pow_sub_one]
    have hpos : 0 < 2 ^ k := Nat.pos_pow_of_pos _ (by norm_num)
    have := Nat.mod_lt (sub64 rb.head rb.tail) hpos
    omega
  · have hfresh := pushList_fresh l rb0 (Nat.size (c - 1)) hcap2 hk63 htail
      (by rw [hhead]; omega)
    obtain ⟨p1, p2, p3, p4, p5, p6⟩ := hfresh
    refine ⟨p1, ?_⟩
    have hdrain := popN_drain l.length (pushList rb0 l).1 (Nat.size (c - 1))
      (by rw [p2]; exact hcap2) hk63
      (by rw [p3, p4, hhead])
      (by rw [p4, p2, hhead]; omega)
    rw [hdrain.1]
    apply List.ext_getElem
    · simp
    · intro i hi1 hi2
      have hil : i < l.length := by simpa using hi2
      simp only [List.getElem_map, List.getElem_range]
      rw [p3]
      have := p6 i hil
      rw [hhead] at this
      rw [show (0 : ℕ) + i = i from by omega] at this ⊢
      rw [this, List.get_eq_getElem]

/-- Witness for C1: requested capacity 3 rounds up to 4; pushing three
distinct samples into the fresh buffer and popping three returns them in
order. -/
theorem ringbuffer_spec_witness :
    ((1 : ℕ) ≤ 3 ∧ (3 : ℕ) ≤ 2 ^ 63 ∧
      ringbuffer_init 3
        = some (Ringbuffer.mk (next_power_of_two 3) (fun _ => zeroSample) 0 0) ∧
      ([Sample.mk 0 0 1 0 0 0 0 0 0 0, Sample.mk 0 0 2 0 0 0 0 0 0 0,
          Sample.mk 0 0 3 0 0 0 0 0 0 0] : List Sample).length
        = (Ringbuffer.mk (next_power_of_two 3) (fun _ => zeroSample) 0 0).capacity
            - 1) ∧
    ((pushList (Ringbuffer.mk (next_power_of_two 3) (fun _ => zeroSample) 0 0)
        [Sample.mk 0 0 1 0 0 0 0 0 0 0, Sample.mk 0 0 2 0 0 0 0 0 0 0,
          Sample.mk 0 0 3 0 0 0 0 0 0 0]).2
      = List.replicate ([Sample.mk 0 0 1 0 0 0 0 0 0 0,
          Sample.mk 0 0 2 0 0 0 0 0 0 0,
          Sample.mk 0 0 3 0 0 0 0 0 0 0] : List Sample).length true ∧
     (popN (pushList (Ringbuffer.mk (next_power_of_two 3) (fun _ => zeroSample) 0 0)
        [Sample.mk 0 0 1 0 0 0 0 0 0 0, Sample.mk 0 0 2 0 0 0 0 0 0 0,
          Sample.mk 0 0 3 0 0 0 0 0 0 0]).1
        ([Sample.mk 0 0 1 0 0 0 0 0 0 0, Sample.mk 0 0 2 0 0 0 0 0 0 0,
          Sample.mk 0 0 3 0 0 0 0 0 0 0] : List Sample).length).2
      = ([Sample.mk 0 0 1 0 0 0 0 0 0 0, Sample.mk 0 0 2 0 0 0 0 0 0 0,
          Sample.mk 0 0 3 0 0 0 0 0 0 0] : List Sample).map some) :=
  ⟨⟨by decide, by decide, rfl, by decide⟩,
    (ringbuffer_spec 3 (by decide) (by decide)
      (Ringbuffer.mk (next_power_of_two 3) (fun _ => zeroSample) 0 0) rfl
      [Sample.mk 0 0 1 0 0 0 0 0 0 0, Sample.mk 0 0 2 0 0 0 0 0 0 0,
        Sample.mk 0 0 3 0 0 0 0 0 0 0] (by decide)).2.2.2.2⟩

/-- Counterexample to C1 as stated.  First, the 64-bit round-up wraps for
requests above `2^63`: `next_power_of_two (2^63 + 1) = 0`, which is not a
power of two, so init does not round "any requested capacity" up to a
power of two.  Second, with capacity `C = 2` (requested 2, already a power
of two), pushing `C = 2` samples loses the second one (the push reports
full at count `C - 1`), and popping `C` returns the first sample and then
`empty` — not the original two-sample sequence. -/
theorem ringbuffer_spec_counterexample :
    (next_power_of_two (2 ^ 63 + 1) = 0 ∧
      ∀ k : ℕ, next_power_of_two (2 ^ 63 + 1) ≠ 2 ^ k) ∧
    (ringbuffer_init 2
        = some (Ringbuffer.mk (next_power_of_two 2) (fun _ => zeroSample) 0 0) ∧
      (Ringbuffer.mk (next_power_of_two 2) (fun _ => zeroSample) 0 0).capacity
        = 2 ∧
      (pushList (Ringbuffer.mk (next_power_of_two 2) (fun _ => zeroSample) 0 0)
        [zeroSample, Sample.mk 0 0 1 0 0 0 0 0 0 0]).2 = [true, false] ∧
      (popN (pushList (Ringbuffer.mk (next_power_of_two 2) (fun _ => zeroSample) 0 0)
        [zeroSample, Sample.mk 0 0 1 0 0 0 0 0 0 0]).1 2).2
        = [some zeroSample, none] ∧
      (popN (pushList (Ringbuffer.mk (next_power_of_two 2) (fun _ => zeroSample) 0 0)
        [zeroSample, Sample.mk 0 0 1 0 0 0 0 0 0 0]).1 2).2
        ≠ ([zeroSample, Sample.mk 0 0 1 0 0 0 0 0 0 0] : List Sample).map some) := by
  have h0 : next_power_of_two (2 ^ 63 + 1) = 0 := by decide
  refine ⟨⟨h0, fun k => ?_⟩, rfl, by decide, by decide, by decide, by decide⟩
  rw [h0]
  exact (Nat.pos_pow_of_pos k (by norm_num)).ne
